import Mathlib

/-!
# Verification of the `billable` entitlement ledger

A shallow embedding of the core ledger operations of the `billable`
Django application, together with theorems settling the frozen claims
about its specification.

Modelling conventions:

* Machine state is explicit: `LedgerState` carries the `QuotaBatch` and
  `Transaction` tables as lists in storage (insertion) order; `SysState`
  adds the `Order` table.  Methods of the Python services become pure
  functions from state to (result, state).
* Timestamps are integer instants (`Int`); `expires_at` is `Option Int`
  with `none` for SQL `NULL`.  Comparisons mirror the Django lookups
  (`expires_at__gt`, `expires_at__lt`) exactly.
* `uuid7` identifiers are time-ordered, so they are modelled as `Nat`
  counters handed out in creation order; `created_at` order of
  transactions coincides with id order.
* `dateutil.relativedelta` calendar arithmetic for MONTHS/YEARS periods
  acts on the abstract instant model; the development is parameterised
  by two functions `addMonths addYears : Int → Int → Int` since no claim
  inspects the value they produce.
* A Python `dict` result becomes an inductive result type; an uncaught
  Python exception (e.g. `IndexError` from `consumed_info[-1]`) becomes
  a dedicated error constructor, with the enclosing `transaction.atomic`
  rollback reflected by returning the entry state unchanged.
* SQL `ORDER BY created_at` leaves rows with equal keys in a
  database-chosen order; the model realises one admissible execution by
  sorting the stored row order stably.
-/

namespace Billable

/-- `QuotaBatch.State` choices. -/
inductive BatchState where
  | ACTIVE
  | EXHAUSTED
  | EXPIRED
  | REVOKED
deriving DecidableEq, Repr

/-- `Transaction.Direction` choices. -/
inductive Direction where
  | CREDIT
  | DEBIT
deriving DecidableEq, Repr

/-- `OfferItem.PeriodUnit` choices. -/
inductive PeriodUnit where
  | hours
  | days
  | months
  | years
  | forever
deriving DecidableEq, Repr

/-- `Order.Status` choices. -/
inductive OrderStatus where
  | PENDING
  | PAID
  | CANCELLED
  | REFUNDED
deriving DecidableEq, Repr

/-- One row of `billable_quota_batches`.  The `product` foreign key is
denormalised to the fields the services read through `select_related`
(`product.id` and `product.product_key`, the latter stored in canonical
upper case, `""` standing for a null key). -/
structure QuotaBatch where
  id : Nat
  userId : Nat
  productId : Nat
  productKey : String
  orderItemId : Option Nat
  initial_quantity : Int
  remaining_quantity : Int
  expires_at : Option Int
  state : BatchState
  created_at : Int
deriving DecidableEq, Repr

/-- One row of `billable_transactions`.  `idemKey` is the
`idempotency_key` entry of the JSON `metadata` column (`none` both for a
stored null and for metadata without the entry, which is how the Django
`metadata__idempotency_key=<string>` lookup sees them). -/
structure Txn where
  id : Nat
  userId : Nat
  batchId : Nat
  amount : Int
  direction : Direction
  actionType : String
  idemKey : Option String
deriving DecidableEq, Repr

/-- The ledger tables, in storage (insertion) order, plus the uuid7
generators modelled as counters. -/
structure LedgerState where
  batches : List QuotaBatch
  txns : List Txn
  nextBatchId : Nat
  nextTxnId : Nat
deriving DecidableEq, Repr

/-- A `Product` row, restricted to the fields the ledger reads. -/
structure Product where
  id : Nat
  product_key : String
  is_currency : Bool
deriving DecidableEq, Repr

/-- An `OfferItem` row (product foreign key denormalised). -/
structure OfferItem where
  productId : Nat
  productKey : String
  quantity : Int
  period_unit : PeriodUnit
  period_value : Option Int
deriving DecidableEq, Repr

/-- An `Offer` row with its items.  `price` is a decimal in the source;
the ledger only ever uses `int(offer.price)`, so the model carries that
integer. -/
structure Offer where
  id : Nat
  sku : String
  price : Int
  currency : String
  is_active : Bool
  items : List OfferItem
deriving DecidableEq, Repr

/-- An `OrderItem` row. -/
structure OrderItem where
  id : Nat
  offer : Option Offer
  quantity : Int
deriving DecidableEq, Repr

/-- An `Order` row with its items. -/
structure Order where
  id : Nat
  userId : Nat
  status : OrderStatus
  payment_id : Option String
  payment_method : String
  paid_at : Option Int
  items : List OrderItem
deriving DecidableEq, Repr

/-- Ledger plus order tables. -/
structure SysState where
  ledger : LedgerState
  orders : List Order
deriving DecidableEq, Repr

/-- `product_key.upper()` — upper-case normalisation of keys/SKUs,
computed over the underlying character list (the keys of this system
are ASCII, where Python `str.upper` and `Char.toUpper` agree). -/
def normKey (k : String) : String := String.mk (k.data.map Char.toUpper)

/-- Python `str.strip()` — drop leading and trailing whitespace,
computed over the underlying character list. -/
def pyStrip (s : String) : String :=
  String.mk (((s.data.dropWhile Char.isWhitespace).reverse.dropWhile
    Char.isWhitespace).reverse)

/-- The expiry part of `_find_active_batches`:
`Q(expires_at__isnull=True) | Q(expires_at__gt=now)` together with
`state=ACTIVE`. -/
def activeNonExpired (now : Int) (b : QuotaBatch) : Bool :=
  b.state == .ACTIVE &&
    (match b.expires_at with
     | none => true
     | some e => now < e)

/-- `TransactionService._find_active_batches`: ACTIVE batches of the
user, not expired, optionally filtered by the upper-cased product key.
Mirrors Python truthiness: a `None` or empty `product_key` applies no
key filter. -/
def find_active_batches (st : LedgerState) (user_id : Nat)
    (product_key : Option String) (now : Int) : List QuotaBatch :=
  let base := st.batches.filter fun b =>
    b.userId == user_id && activeNonExpired now b
  match product_key with
  | some k =>
      if k ≠ "" then base.filter (fun b => b.productKey == normKey k) else base
  | none => base

/-- `TransactionService.get_balance`: sum of `remaining_quantity` over
the active batches of the key (`Sum` aggregate, `None → 0`). -/
def get_balance (st : LedgerState) (user_id : Nat) (product_key : String)
    (now : Int) : Int :=
  ((find_active_batches st user_id (some product_key) now).map
    (·.remaining_quantity)).sum

/-- Stable insertion into a list sorted by `created_at` (ties keep the
already-present row first). -/
def insertByCreated (x : QuotaBatch) : List QuotaBatch → List QuotaBatch
  | [] => [x]
  | y :: ys =>
      if x.created_at ≤ y.created_at then x :: y :: ys
      else y :: insertByCreated x ys

/-- `order_by('created_at')`: stable sort of the stored row order by
`created_at`.  SQL specifies nothing about rows with equal keys; the
stable sort realises one admissible database execution, with tied rows
in stored order. -/
def order_by_created_at : List QuotaBatch → List QuotaBatch
  | [] => []
  | x :: xs => insertByCreated x (order_by_created_at xs)

/-- The idempotency lookup of `consume_quota`:
`Transaction.objects.filter(user_id=…, action_type=…,
metadata__idempotency_key=key).first()`.  The `Transaction` model's
`Meta.ordering` is `["-created_at"]` and ids are time-ordered uuid7
values handed out in creation order, so `.first()` is the most recently
created match; the model realises it by searching the reversed storage
order. -/
def idempotencyLookup (txns : List Txn) (user_id : Nat)
    (action_type : String) (key : String) : Option Txn :=
  txns.reverse.find? fun t =>
    t.userId == user_id && t.actionType == action_type &&
      t.idemKey == some key

/-- `existing.quota_batch.product.product_key` — the product key behind
a transaction's batch foreign key (the FK is non-null, so the default is
never taken on states produced by the operations). -/
def batchProductKey (st : LedgerState) (batchId : Nat) : String :=
  ((st.batches.find? (fun b => b.id == batchId)).map (·.productKey)).getD ""

/-- Result dict of `consume_quota` (and of the services that forward
it).  `okNew` is the "Quota consumed" success reply, `okIdem` the
"consumed previously (idempotent)" reply, both carrying `usage_id` and
`remaining`; `indexError` models the uncaught `IndexError` raised by
`consumed_info[-1]` on an empty list (the enclosing atomic block rolls
back). -/
inductive ConsumeResult where
  | okNew (usageId : Nat) (remaining : Int)
  | okIdem (usageId : Nat) (remaining : Int)
  | quotaExhausted
  | insufficientFunds
  | indexError
deriving DecidableEq, Repr

/-- `success` field of the consume reply. -/
def ConsumeResult.success : ConsumeResult → Bool
  | .okNew _ _ => true
  | .okIdem _ _ => true
  | _ => false

/-- The FIFO walk of `consume_quota`: for each batch, while
`remaining_needed > 0`, take `min(batch.remaining_quantity,
remaining_needed)`, decrement, mark EXHAUSTED exactly when the batch
hits zero, and emit one DEBIT transaction carrying the idempotency key.
Returns the updated copies of the touched batches, the emitted
transactions (in creation order) and the advanced id counter. -/
def consumeLoop (user_id : Nat) (action_type : String)
    (idemKey : Option String) :
    List QuotaBatch → Int → Nat → List QuotaBatch × List Txn × Nat
  | [], _, nextId => ([], [], nextId)
  | b :: bs, needed, nextId =>
      if needed ≤ 0 then ([], [], nextId)
      else
        let consume := min b.remaining_quantity needed
        let rem := b.remaining_quantity - consume
        let b' : QuotaBatch :=
          { b with
              remaining_quantity := rem
              state := if rem == 0 then .EXHAUSTED else b.state }
        let tx : Txn :=
          { id := nextId, userId := user_id, batchId := b.id,
            amount := consume, direction := .DEBIT,
            actionType := action_type, idemKey := idemKey }
        let rest := consumeLoop user_id action_type idemKey bs
          (needed - consume) (nextId + 1)
        (b' :: rest.1, tx :: rest.2.1, rest.2.2)

/-- `batch.save(...)`: write the updated copies back into the table by
primary key. -/
def applyBatchUpdates (db : List QuotaBatch) (upd : List QuotaBatch) :
    List QuotaBatch :=
  db.map fun b => ((upd.find? (fun u => u.id == b.id)).getD b)

/-- The body of `consume_quota` past the idempotency check: select the
active batches FIFO, run the availability checks, walk the batches and
build the success reply. -/
def consumeCore (st : LedgerState) (user_id : Nat) (product_key : String)
    (action_type : String) (amount : Int) (idempotency_key : Option String)
    (now : Int) : ConsumeResult × LedgerState :=
  match order_by_created_at
      (find_active_batches st user_id (some product_key) now) with
  | [] => (.quotaExhausted, st)
  | first :: rest =>
      let selected := first :: rest
      let total := (selected.map (·.remaining_quantity)).sum
      if total < amount then (.insufficientFunds, st)
      else
        let walk := consumeLoop user_id action_type idempotency_key
          selected amount st.nextTxnId
        match walk.2.1.getLast? with
        | none => (.indexError, st)
        | some lastTx =>
            let st' : LedgerState :=
              { st with
                  batches := applyBatchUpdates st.batches walk.1
                  txns := st.txns ++ walk.2.1
                  nextTxnId := walk.2.2 }
            (.okNew lastTx.id (get_balance st' user_id first.productKey now),
             st')

/-- `TransactionService.consume_quota`.  Python truthiness again: a
`None` or empty idempotency key skips the idempotency lookup. -/
def consume_quota (st : LedgerState) (user_id : Nat) (product_key : String)
    (action_type : String) (amount : Int) (idempotency_key : Option String)
    (now : Int) : ConsumeResult × LedgerState :=
  match idempotency_key with
  | some k =>
      if k ≠ "" then
        match idempotencyLookup st.txns user_id action_type k with
        | some existing =>
            (.okIdem existing.id
              (get_balance st user_id (batchProductKey st existing.batchId) now),
             st)
        | none =>
            consumeCore st user_id product_key action_type amount
              idempotency_key now
      else
        consumeCore st user_id product_key action_type amount
          idempotency_key now
  | none =>
      consumeCore st user_id product_key action_type amount
        idempotency_key now

/-- The `expires_at` computation of `grant_offer`:
`now + timedelta/relativedelta` unless the period is FOREVER or the
period value is falsy (absent or zero).  Hours and days are exact
durations; months and years delegate to the ambient calendar arithmetic
`addMonths`/`addYears` (the `relativedelta` cases). -/
def computeExpires (addMonths addYears : Int → Int → Int) (now : Int)
    (unit : PeriodUnit) (value : Option Int) : Option Int :=
  if unit = .forever then none
  else
    match value with
    | none => none
    | some v =>
        if v = 0 then none
        else
          some (match unit with
            | .hours => now + v * 3600
            | .days => now + v * 86400
            | .months => addMonths now v
            | .years => addYears now v
            | .forever => now + 0)

/-- The quantity `grant_offer` grants for one offer item: the item's
quantity, multiplied by the order item's quantity when invoked from an
order. -/
def grantTotal (order_item : Option OrderItem) (item : OfferItem) : Int :=
  match order_item with
  | some oi => item.quantity * oi.quantity
  | none => item.quantity

/-- The ACTIVE batch `grant_offer` inserts for one offer item
(`initial_quantity = remaining_quantity = total`). -/
def grantBatch (addMonths addYears : Int → Int → Int) (user_id : Nat)
    (order_item : Option OrderItem) (now : Int) (item : OfferItem)
    (st : LedgerState) : QuotaBatch :=
  { id := st.nextBatchId, userId := user_id,
    productId := item.productId, productKey := item.productKey,
    orderItemId := (order_item.map (·.id)),
    initial_quantity := grantTotal order_item item,
    remaining_quantity := grantTotal order_item item,
    expires_at := computeExpires addMonths addYears now
      item.period_unit item.period_value,
    state := .ACTIVE, created_at := now }

/-- The CREDIT transaction `grant_offer` inserts for one offer item. -/
def grantTxn (user_id : Nat) (order_item : Option OrderItem)
    (source : String) (item : OfferItem) (st : LedgerState) : Txn :=
  { id := st.nextTxnId, userId := user_id, batchId := st.nextBatchId,
    amount := grantTotal order_item item, direction := .CREDIT,
    actionType := source, idemKey := none }

/-- The per-item body of `grant_offer`'s loop, one recursive step per
`OfferItem`. -/
def grantItems (addMonths addYears : Int → Int → Int) (user_id : Nat)
    (order_item : Option OrderItem) (source : String) (now : Int) :
    List OfferItem → LedgerState → List QuotaBatch × LedgerState
  | [], st => ([], st)
  | item :: rest, st =>
      let batch := grantBatch addMonths addYears user_id order_item now
        item st
      let tx := grantTxn user_id order_item source item st
      let st' : LedgerState :=
        { st with
            batches := st.batches ++ [batch]
            txns := st.txns ++ [tx]
            nextBatchId := st.nextBatchId + 1
            nextTxnId := st.nextTxnId + 1 }
      let r := grantItems addMonths addYears user_id order_item source now
        rest st'
      (batch :: r.1, r.2)

/-- `TransactionService.grant_offer`: for each item of the offer compute
the expiry, multiply the quantity by the order item's quantity when
invoked from an order, insert one ACTIVE batch with
`initial_quantity = remaining_quantity = total`, and insert one CREDIT
transaction for it.  Returns the created batches. -/
def grant_offer (addMonths addYears : Int → Int → Int) (st : LedgerState)
    (user_id : Nat) (offer : Offer) (order_item : Option OrderItem)
    (source : String) (now : Int) : List QuotaBatch × LedgerState :=
  grantItems addMonths addYears user_id order_item source now
    offer.items st

/-- `TransactionService.expire_batches`: one bulk update marking every
ACTIVE batch with `expires_at__lt=now` as EXPIRED (a SQL `NULL`
`expires_at` never satisfies the lookup); returns the number of rows
updated. -/
def expire_batches (st : LedgerState) (now : Int) : LedgerState × Nat :=
  let hit := fun (b : QuotaBatch) =>
    b.state == .ACTIVE &&
      (match b.expires_at with
       | some e => e < now
       | none => false)
  ({ st with
      batches := st.batches.map fun b =>
        if hit b then { b with state := .EXPIRED } else b },
   (st.batches.filter hit).length)

/-- `TransactionService.revoke_order_items`: for every ACTIVE batch
linked to an item of the order, emit a DEBIT for the positive remaining
amount, zero the batch and mark it REVOKED; returns the count of
batches revoked. -/
def revoke_order_items (st : LedgerState) (order : Order)
    (reason : String) : LedgerState × Nat :=
  let itemIds := order.items.map (·.id)
  let isTarget := fun (b : QuotaBatch) =>
    (match b.orderItemId with
     | some oi => itemIds.contains oi
     | none => false) && b.state == .ACTIVE
  st.batches.foldl
    (fun acc b =>
      if isTarget b then
        let s := acc.1
        let s1 :=
          if b.remaining_quantity > 0 then
            { s with
                txns := s.txns ++
                  [{ id := s.nextTxnId, userId := b.userId, batchId := b.id,
                     amount := b.remaining_quantity, direction := .DEBIT,
                     actionType := reason, idemKey := none }]
                nextTxnId := s.nextTxnId + 1 }
          else s
        ({ s1 with
            batches := s1.batches.map fun c =>
              if c.id == b.id then
                { c with remaining_quantity := 0, state := .REVOKED }
              else c },
         acc.2 + 1)
      else acc)
    (st, 0)

/-- Result of `TransactionService.exchange`.  The two `ValueError`
raises abort the atomic block before anything is written. -/
inductive ExchangeResult where
  | ok
  | currencyNotFound
  | notCurrency
  | consumeFailed (r : ConsumeResult)
deriving DecidableEq, Repr

/-- `TransactionService.exchange`: interpret `offer.currency`
(stripped, upper-cased) as a product key, require an existing product
with `is_currency`, consume `int(offer.price)` units of it with action
type `exchange`, and only then grant the offer with source `exchange`.
A failed consume is returned as-is and nothing is granted. -/
def exchange (addMonths addYears : Int → Int → Int)
    (products : List Product) (st : LedgerState) (user_id : Nat)
    (offer : Offer) (now : Int) : ExchangeResult × LedgerState :=
  let currency_sku := normKey (pyStrip offer.currency)
  match products.find? (fun p => p.product_key == currency_sku) with
  | none => (.currencyNotFound, st)
  | some source_product =>
      if !source_product.is_currency then (.notCurrency, st)
      else
        let price := offer.price
        let res := consume_quota st user_id source_product.product_key
          "exchange" price none now
        if !res.1.success then (.consumeFailed res.1, res.2)
        else
          (.ok,
           (grant_offer addMonths addYears res.2 user_id offer none
             "exchange" now).2)

/-- The grant loop of `process_payment`: grant each order item's offer
(skipping items whose offer FK is null) with source `purchase`. -/
def grantOrderItems (addMonths addYears : Int → Int → Int) (user_id : Nat)
    (now : Int) : List OrderItem → LedgerState → LedgerState
  | [], led => led
  | item :: rest, led =>
      let led' := match item.offer with
        | some off =>
            (grant_offer addMonths addYears led user_id off (some item)
              "purchase" now).2
        | none => led
      grantOrderItems addMonths addYears user_id now rest led'

/-- `OrderService.process_payment`: under row-lock, return success
immediately when the order is already PAID; otherwise stamp it PAID and
grant every order item's offer with source `purchase`.  `none` models
the `Order.DoesNotExist` exception. -/
def process_payment (addMonths addYears : Int → Int → Int) (st : SysState)
    (order_id : Nat) (payment_id : Option String) (payment_method : String)
    (now : Int) : Option (Bool × SysState) :=
  match st.orders.find? (fun o => o.id == order_id) with
  | none => none
  | some order =>
      if order.status = .PAID then some (true, st)
      else
        let order' := { order with
          status := OrderStatus.PAID, payment_id := payment_id,
          payment_method := payment_method, paid_at := some now }
        let ledger' := grantOrderItems addMonths addYears order.userId now
          order'.items st.ledger
        some (true,
          { ledger := ledger'
            orders := st.orders.map fun o =>
              if o.id == order_id then order' else o })

/-- `OrderService.cancel_order`: refuse (returning `False`) when the
order is PAID or REFUNDED, otherwise set it CANCELLED. -/
def cancel_order (st : SysState) (order_id : Nat) :
    Option (Bool × SysState) :=
  match st.orders.find? (fun o => o.id == order_id) with
  | none => none
  | some order =>
      if order.status = .PAID ∨ order.status = .REFUNDED then
        some (false, st)
      else
        some (true,
          { st with
              orders := st.orders.map fun o =>
                if o.id == order_id then { order with status := .CANCELLED }
                else o })

/-- `OrderService.refund_order`: only a PAID order is refunded — revoke
its batches, then set it REFUNDED. -/
def refund_order (st : SysState) (order_id : Nat) :
    Option (Bool × SysState) :=
  match st.orders.find? (fun o => o.id == order_id) with
  | none => none
  | some order =>
      if order.status ≠ .PAID then some (false, st)
      else
        some (true,
          { ledger := (revoke_order_items st.ledger order "refund").1
            orders := st.orders.map fun o =>
              if o.id == order_id then { order with status := .REFUNDED }
              else o })

/-- Insert-or-add into an association list, preserving first-insertion
order — the behaviour of the Python `dict` the wallet view builds. -/
def bumpAssoc (acc : List (String × Int)) (key : String) (v : Int) :
    List (String × Int) :=
  if acc.any (fun kv => kv.1 == key) then
    acc.map fun kv => if kv.1 == key then (kv.1, kv.2 + v) else kv
  else acc ++ [(key, v)]

/-- The balance aggregation of the `GET /wallet` endpoint
(`api.aget_wallet`): iterate the user's batches filtered by
`state=ACTIVE` only and sum `remaining_quantity` per product key (with
the `prod_<id>` fallback for a null key).  Note: the query applies no
`expires_at` filter. -/
def aget_wallet (st : LedgerState) (user_id : Nat) : List (String × Int) :=
  st.batches.foldl
    (fun acc b =>
      if b.userId == user_id && b.state == .ACTIVE then
        let key := if b.productKey ≠ "" then b.productKey
          else "prod_" ++ toString b.productId
        bumpAssoc acc key b.remaining_quantity
      else acc)
    []

/-- One value of the summary dict built by
`BalanceService.get_balance_summary` (the `is_unlimited` flag, which
needs the product type, is not modelled — no claim reads it). -/
structure SummaryEntry where
  total : Int
  used : Int
  remaining : Int
  expiry : Option Int
deriving DecidableEq, Repr

/-- Insert-or-update for the summary dict. -/
def bumpSummary (acc : List (String × SummaryEntry)) (key : String)
    (b : QuotaBatch) : List (String × SummaryEntry) :=
  let upd := fun (e : SummaryEntry) =>
    { total := e.total + b.initial_quantity
      used := e.used + (b.initial_quantity - b.remaining_quantity)
      remaining := e.remaining + b.remaining_quantity
      expiry :=
        match b.expires_at, e.expiry with
        | some x, none => some x
        | some x, some y => if x < y then some x else some y
        | none, y => y }
  if acc.any (fun kv => kv.1 == key) then
    acc.map fun kv => if kv.1 == key then (kv.1, upd kv.2) else kv
  else
    acc ++ [(key, upd { total := 0, used := 0, remaining := 0, expiry := none })]

/-- `BalanceService.get_balance_summary`: per product key, totals over
the user's batches filtered by `state=ACTIVE` only.  Note: the query
applies no `expires_at` filter. -/
def get_balance_summary (st : LedgerState) (user_id : Nat) :
    List (String × SummaryEntry) :=
  st.batches.foldl
    (fun acc b =>
      if b.userId == user_id && b.state == .ACTIVE then
        bumpSummary acc b.productKey b
      else acc)
    []

/-! ## Example states used by the claim theorems -/

/-- A user id used throughout the concrete examples. -/
def exUser : Nat := 7

/-- A template batch: 5 of `TOKENS`, ACTIVE, no expiry. -/
def exBatch : QuotaBatch :=
  { id := 1, userId := exUser, productId := 1, productKey := "TOKENS",
    orderItemId := none, initial_quantity := 5, remaining_quantity := 5,
    expires_at := none, state := .ACTIVE, created_at := 10 }

/-- A ledger whose only batch is still ACTIVE in storage but whose
`expires_at` (instant 100) is already in the past at instant 200. -/
def expiredActiveLedger : LedgerState :=
  { batches := [{ exBatch with expires_at := some 100 }], txns := [],
    nextBatchId := 2, nextTxnId := 100 }

/-! ## Claim theorems -/

/-- **C1** (code_bug evidence).  The claim says GET /wallet and the
balance summary return, per product key, the sum of
`remaining_quantity` over ACTIVE **non-expired** batches, an ACTIVE
batch with `expires_at` in the past contributing nothing.  The code
violates this: at a state holding a single ACTIVE batch of 5 TOKENS
whose `expires_at=100` lies before `now=200`, both `aget_wallet` and
`get_balance_summary` still count its 5 units, while the
expiration-filtering reader `get_balance` (the filter the claim
prescribes) reports 0 for the same state. -/
theorem C1_wallet_counts_expired_active_batch :
    aget_wallet expiredActiveLedger exUser = [("TOKENS", 5)] ∧
    get_balance_summary expiredActiveLedger exUser =
      [("TOKENS", { total := 5, used := 0, remaining := 5,
                    expiry := some 100 })] ∧
    get_balance expiredActiveLedger exUser "TOKENS" 200 = 0 := by
  refine ⟨rfl, rfl, rfl⟩

/-- **C7** (counterexample).  The claim says EXPIRE marks every ACTIVE
batch with `expires_at ≤ now` as EXPIRED, including one whose
`expires_at` equals `now` exactly.  The code filters with the strict
`expires_at__lt=now`: at `now = 100` a batch with `expires_at = 100`
is left ACTIVE and the update count is 0, not 1. -/
theorem C7_counterexample_boundary_not_expired :
    (expire_batches expiredActiveLedger 100).2 = 0 ∧
    (expire_batches expiredActiveLedger 100).1.batches.map (·.state) =
      [BatchState.ACTIVE] := by
  exact ⟨rfl, rfl⟩

/-- **C7** (amended).  EXPIRE marks every ACTIVE batch with non-null
`expires_at` **strictly less than** `now` as EXPIRED, changes no other
batch (and no transaction), and returns the number of batches updated. -/
theorem C7_expire_strictly_before_now (st : LedgerState) (now : Int) :
    (expire_batches st now).1.txns = st.txns ∧
    (expire_batches st now).2 =
      st.batches.countP (fun b =>
        b.state == .ACTIVE &&
          (match b.expires_at with
           | some e => decide (e < now)
           | none => false)) ∧
    List.Forall₂ (fun b b' =>
        (b.state = .ACTIVE ∧ (∃ e, b.expires_at = some e ∧ e < now) →
          b' = { b with state := BatchState.EXPIRED }) ∧
        (¬ (b.state = .ACTIVE ∧ (∃ e, b.expires_at = some e ∧ e < now)) →
          b' = b))
      st.batches (expire_batches st now).1.batches := by
  refine ⟨rfl, ?_, ?_⟩
  · simp [expire_batches, List.countP_eq_length_filter]
  · unfold expire_batches
    simp only
    induction st.batches with
    | nil => exact List.Forall₂.nil
    | cons b bs ih =>
        refine List.Forall₂.cons ?_ ih
        constructor
        · rintro ⟨hA, e, he, hlt⟩
          simp [hA, he, hlt]
        · intro hno
          by_cases hA : b.state = BatchState.ACTIVE
          · cases hx : b.expires_at with
            | none => simp [hA, hx]
            | some e =>
                have hnl : ¬ e < now := fun hlt => hno ⟨hA, e, hx, hlt⟩
                simp [hA, hx, hnl]
          · have : (b.state == BatchState.ACTIVE) = false := by
              simp [hA]
            simp [this]

/-- **C7** (witness).  The amended theorem applied to the concrete
boundary state at `now = 100`. -/
theorem C7_expire_strictly_before_now_witness :
    (expire_batches expiredActiveLedger 100).1.txns =
      expiredActiveLedger.txns :=
  (C7_expire_strictly_before_now expiredActiveLedger 100).1

/-- Status of the order with the given id, read back from the state. -/
def orderStatus (st : SysState) (order_id : Nat) : Option OrderStatus :=
  (st.orders.find? (fun o => o.id == order_id)).map (·.status)

/-- An example offer granting 100 `TOKENS` forever. -/
def exOffer : Offer :=
  { id := 1, sku := "PACK", price := 10, currency := "USD",
    is_active := true,
    items := [{ productId := 1, productKey := "TOKENS", quantity := 100,
                period_unit := .forever, period_value := none }] }

/-- An example one-item order in the given status. -/
def exOrder (status : OrderStatus) : Order :=
  { id := 1, userId := exUser, status := status, payment_id := none,
    payment_method := "provider_payments", paid_at := none,
    items := [{ id := 1, offer := some exOffer, quantity := 1 }] }

/-- A system state holding only the example order, with an empty
ledger. -/
def exSys (status : OrderStatus) : SysState :=
  { ledger := { batches := [], txns := [], nextBatchId := 1, nextTxnId := 1 },
    orders := [exOrder status] }

/-- **C2** (counterexample).  The claim says no operation moves a
CANCELLED or REFUNDED order to any other state, CONFIRM in particular.
The code's `process_payment` only short-circuits on PAID: confirming
the example CANCELLED order succeeds and leaves it PAID (and even
grants its items' offers). -/
theorem C2_counterexample_confirm_cancelled :
    ((process_payment (fun n _ => n) (fun n _ => n) (exSys .CANCELLED) 1
        (some "PAY-1") "wire" 50).map fun r => (r.1, orderStatus r.2 1)) =
      some (true, some OrderStatus.PAID) := by
  exact rfl

/-- Auxiliary: after replacing every order whose id matches by a fixed
order carrying that id, `find?` by id returns the replacement. -/
theorem find?_map_replace (orders : List Order) (order_id : Nat)
    (o o' : Order)
    (hfind : orders.find? (fun p => p.id == order_id) = some o)
    (hid : o'.id = order_id) :
    (orders.map fun p => if p.id == order_id then o' else p).find?
        (fun p => p.id == order_id) = some o' := by
  induction orders with
  | nil => simp at hfind
  | cons q qs ih =>
      by_cases hq : q.id = order_id
      · have hq' : (q.id == order_id) = true := by
          simpa using hq
        have ho' : (fun p : Order => p.id == order_id) o' = true := by
          simpa using hid
        simp only [List.map_cons, hq', if_true]
        exact List.find?_cons_of_pos _ ho'
      · have hq' : (q.id == order_id) = false := by
          simpa using hq
        have hqn : ¬ (fun p : Order => p.id == order_id) q = true := by
          simpa using hq
        rw [List.find?_cons_of_neg (p := fun p : Order => p.id == order_id)
          qs hqn] at hfind
        simp only [List.map_cons, hq', Bool.false_eq_true, if_false]
        rw [List.find?_cons_of_neg (p := fun p : Order => p.id == order_id)
          (qs.map fun p => if p.id == order_id then o' else p) hqn]
        exact ih hfind

/-- **C2** (amended).  The order lifecycle the code actually
implements: CONFIRM moves **any** order that is not already PAID —
PENDING, CANCELLED or REFUNDED alike — to PAID and answers success on
an already-PAID order without change; CANCEL refuses PAID and REFUNDED
orders and otherwise sets CANCELLED; REFUND refuses non-PAID orders
and moves PAID to REFUNDED.  So PENDING→PAID, PENDING→CANCELLED and
PAID→REFUNDED exist as claimed, but CANCELLED and REFUNDED are *not*
terminal: CONFIRM revives either to PAID. -/
theorem C2_order_transitions (addM addY : Int → Int → Int) (st : SysState)
    (order_id : Nat) (pid : Option String) (pm : String) (now : Int)
    (o : Order) (hfind : st.orders.find? (fun o => o.id == order_id) = some o) :
    ((o.status = .PAID →
        process_payment addM addY st order_id pid pm now = some (true, st)) ∧
     (o.status ≠ .PAID →
        ((process_payment addM addY st order_id pid pm now).map fun r =>
            (r.1, orderStatus r.2 order_id)) =
          some (true, some .PAID))) ∧
    ((o.status = .PAID ∨ o.status = .REFUNDED →
        cancel_order st order_id = some (false, st)) ∧
     (¬ (o.status = .PAID ∨ o.status = .REFUNDED) →
        ((cancel_order st order_id).map fun r =>
            (r.1, orderStatus r.2 order_id)) =
          some (true, some .CANCELLED))) ∧
    ((o.status ≠ .PAID → refund_order st order_id = some (false, st)) ∧
     (o.status = .PAID →
        ((refund_order st order_id).map fun r =>
            (r.1, orderStatus r.2 order_id)) =
          some (true, some .REFUNDED))) := by
  refine ⟨⟨?_, ?_⟩, ⟨?_, ?_⟩, ⟨?_, ?_⟩⟩
  · intro h
    simp [process_payment, hfind, h]
  · intro h
    have hoid : o.id = order_id := by
      simpa using List.find?_some hfind
    have key := find?_map_replace st.orders order_id o
      ({ o with
          status := OrderStatus.PAID
          payment_id := pid
          payment_method := pm
          paid_at := some now }) hfind hoid
    simp only [process_payment, hfind]
    rw [if_neg h]
    simp only [Option.map_some']
    unfold orderStatus
    simp only [key]
    rfl
  · intro h
    simp [cancel_order, hfind, h]
  · intro h
    have hoid : o.id = order_id := by
      simpa using List.find?_some hfind
    have key := find?_map_replace st.orders order_id o
      ({ o with status := OrderStatus.CANCELLED }) hfind hoid
    simp only [cancel_order, hfind]
    rw [if_neg h]
    simp only [Option.map_some']
    unfold orderStatus
    simp only [key]
    rfl
  · intro h
    simp [refund_order, hfind, h]
  · intro h
    have hoid : o.id = order_id := by
      simpa using List.find?_some hfind
    have key := find?_map_replace st.orders order_id o
      ({ o with status := OrderStatus.REFUNDED }) hfind hoid
    simp only [refund_order, hfind]
    rw [if_neg (not_not_intro h)]
    simp only [Option.map_some']
    unfold orderStatus
    simp only [key]
    rfl

/-- When the idempotency lookup misses (in particular when no key is
given), `consume_quota` runs its core body. -/
theorem consume_quota_eq_core (st : LedgerState) (user_id : Nat)
    (product_key action_type : String) (amount : Int)
    (idempotency_key : Option String) (now : Int)
    (hidem : ∀ k, idempotency_key = some k → k ≠ "" →
      idempotencyLookup st.txns user_id action_type k = none) :
    consume_quota st user_id product_key action_type amount
        idempotency_key now =
      consumeCore st user_id product_key action_type amount
        idempotency_key now := by
  unfold consume_quota
  cases idempotency_key with
  | none => rfl
  | some k =>
      by_cases hk : k = ""
      · subst hk
        simp
      · have hl := hidem k rfl hk
        simp [hk, hl]

/-- A ledger holding the single 5-TOKENS batch. -/
def oneBatchLedger : LedgerState :=
  { batches := [exBatch], txns := [], nextBatchId := 2, nextTxnId := 100 }

/-- **C10**.  `consume_quota` guards `amount` nowhere: called with
`amount ≤ 0` while the user has at least one ACTIVE non-expired batch
of the product (with the data invariant `remaining_quantity ≥ 0`), the
emptiness check and the `total_available < amount` check both pass, the
FIFO loop emits no transaction, and the success-reply construction
evaluates `consumed_info[-1]` on the empty list — an `IndexError`
(out-of-bounds access), with no rows written. -/
theorem C10_consume_nonpositive_amount_crashes (st : LedgerState)
    (user_id : Nat) (product_key action_type : String) (amount : Int)
    (idempotency_key : Option String) (now : Int)
    (hamount : amount ≤ 0)
    (hidem : ∀ k, idempotency_key = some k → k ≠ "" →
      idempotencyLookup st.txns user_id action_type k = none)
    (hne : order_by_created_at
      (find_active_batches st user_id (some product_key) now) ≠ [])
    (hrem : ∀ b ∈ order_by_created_at
        (find_active_batches st user_id (some product_key) now),
      0 ≤ b.remaining_quantity) :
    consume_quota st user_id product_key action_type amount
      idempotency_key now = (.indexError, st) := by
  rw [consume_quota_eq_core st user_id product_key action_type amount
    idempotency_key now hidem]
  unfold consumeCore
  cases hsel : order_by_created_at
      (find_active_batches st user_id (some product_key) now) with
  | nil => exact absurd hsel hne
  | cons first rest =>
      rw [hsel] at hrem
      have htot : ¬ (((first :: rest).map (·.remaining_quantity)).sum < amount) := by
        have h0 : 0 ≤ ((first :: rest).map (·.remaining_quantity)).sum := by
          apply List.sum_nonneg
          intro x hx
          obtain ⟨b, hb, rfl⟩ := List.mem_map.mp hx
          exact hrem b hb
        omega
      have hloop : consumeLoop user_id action_type idempotency_key
          (first :: rest) amount st.nextTxnId = ([], [], st.nextTxnId) := by
        unfold consumeLoop
        rw [if_pos hamount]
      simp only [consumeCore, hsel, hloop]
      rw [if_neg htot]
      rfl

/-- **C10** (witness).  `consume_quota` with `amount = 0` against the
single ACTIVE 5-TOKENS batch raises the modelled `IndexError`. -/
theorem C10_consume_nonpositive_amount_crashes_witness :
    consume_quota oneBatchLedger exUser "TOKENS" "usage" 0 none 50 =
      (.indexError, oneBatchLedger) :=
  C10_consume_nonpositive_amount_crashes oneBatchLedger exUser "TOKENS"
    "usage" 0 none 50 (by decide) (fun k hk => nomatch hk)
    (by decide) (by decide)

/-- A ledger whose single TOKENS batch is ACTIVE and unexpired but has
`remaining_quantity = 0` (reachable: GRANT of an order item with
quantity 0 creates such a batch). -/
def zeroRemainingLedger : LedgerState :=
  { batches := [{ exBatch with
      initial_quantity := 0
      remaining_quantity := 0 }],
    txns := [], nextBatchId := 2, nextTxnId := 100 }

/-- **C4** (counterexample).  The claim requires `quota_exhausted`
whenever the selected batches' `remaining_quantity` sums to zero.  At a
state whose only selected batch is ACTIVE and unexpired with
`remaining_quantity = 0`, the sum is zero yet `consume_quota` (amount
1) answers `insufficient_funds` — the code tests emptiness of the
batch list, not the sum. -/
theorem C4_counterexample_zero_sum_not_exhausted :
    ((order_by_created_at (find_active_batches zeroRemainingLedger exUser
        (some "TOKENS") 50)).map (·.remaining_quantity)).sum = 0 ∧
    consume_quota zeroRemainingLedger exUser "TOKENS" "usage" 1 none 50 =
      (.insufficientFunds, zeroRemainingLedger) := by
  exact ⟨rfl, rfl⟩

/-- **C4** (amended).  For a CONSUME with `amount ≥ 1` whose
idempotency lookup misses: when **no** ACTIVE non-expired batch is
selected the call fails with `quota_exhausted`; when batches are
selected but their `remaining_quantity` sum is less than `amount` it
fails with `insufficient_funds`; on either failure the state — every
`QuotaBatch` row and the `Transaction` table — is returned unchanged
(no partial consumption). -/
theorem C4_availability_checks (st : LedgerState) (user_id : Nat)
    (product_key action_type : String) (amount : Int)
    (idempotency_key : Option String) (now : Int)
    (hidem : ∀ k, idempotency_key = some k → k ≠ "" →
      idempotencyLookup st.txns user_id action_type k = none)
    (hamount : 1 ≤ amount) :
    (order_by_created_at (find_active_batches st user_id
        (some product_key) now) = [] →
      consume_quota st user_id product_key action_type amount
        idempotency_key now = (.quotaExhausted, st)) ∧
    (∀ first rest,
      order_by_created_at (find_active_batches st user_id
        (some product_key) now) = first :: rest →
      ((first :: rest).map (·.remaining_quantity)).sum < amount →
      consume_quota st user_id product_key action_type amount
        idempotency_key now = (.insufficientFunds, st)) := by
  rw [consume_quota_eq_core st user_id product_key action_type amount
    idempotency_key now hidem]
  constructor
  · intro hsel
    simp [consumeCore, hsel]
  · intro first rest hsel hlt
    simp only [consumeCore, hsel]
    rw [if_pos hlt]

/-- **C4** (witness).  The amended theorem applied to the
zero-remaining example state with amount 1. -/
theorem C4_availability_checks_witness :
    consume_quota zeroRemainingLedger exUser "TOKENS" "usage" 1 none 50 =
      (.insufficientFunds, zeroRemainingLedger) :=
  (C4_availability_checks zeroRemainingLedger exUser "TOKENS" "usage" 1
      none 50 (fun k hk => nomatch hk) (by decide)).2
    ({ exBatch with initial_quantity := 0, remaining_quantity := 0 }) []
    (by decide) (by decide)

/-- Inserting into the FIFO sort keeps the same elements. -/
theorem insertByCreated_perm (x : QuotaBatch) (l : List QuotaBatch) :
    (insertByCreated x l).Perm (x :: l) := by
  induction l with
  | nil => simp [insertByCreated]
  | cons y ys ih =>
      unfold insertByCreated
      by_cases h : x.created_at ≤ y.created_at
      · rw [if_pos h]
      · rw [if_neg h]
        exact (ih.cons y).trans (List.Perm.swap x y ys)

/-- The FIFO sort is a permutation of the stored rows. -/
theorem order_by_created_at_perm (l : List QuotaBatch) :
    (order_by_created_at l).Perm l := by
  induction l with
  | nil => simp [order_by_created_at]
  | cons x xs ih =>
      exact (insertByCreated_perm x (order_by_created_at xs)).trans (ih.cons x)

/-- Inserting into a `created_at`-sorted list keeps it sorted. -/
theorem insertByCreated_pairwise (x : QuotaBatch) (l : List QuotaBatch)
    (h : l.Pairwise (fun a b => a.created_at ≤ b.created_at)) :
    (insertByCreated x l).Pairwise
      (fun a b => a.created_at ≤ b.created_at) := by
  induction l with
  | nil => simp [insertByCreated]
  | cons y ys ih =>
      rw [List.pairwise_cons] at h
      unfold insertByCreated
      by_cases hxy : x.created_at ≤ y.created_at
      · rw [if_pos hxy]
        refine List.Pairwise.cons ?_ (List.Pairwise.cons h.1 h.2)
        intro b hb
        rcases List.mem_cons.mp hb with hb | hb
        · exact hb ▸ hxy
        · exact le_trans hxy (h.1 b hb)
      · rw [if_neg hxy]
        refine List.Pairwise.cons ?_ (ih h.2)
        intro b hb
        rcases List.mem_cons.mp ((insertByCreated_perm x ys).mem_iff.mp hb)
          with hb | hb
        · exact hb ▸ le_of_lt (lt_of_not_le hxy)
        · exact h.1 b hb

/-- The FIFO sort is sorted by `created_at` (non-strictly: tied rows
stay adjacent in stored order). -/
theorem order_by_created_at_pairwise (l : List QuotaBatch) :
    (order_by_created_at l).Pairwise
      (fun a b => a.created_at ≤ b.created_at) := by
  induction l with
  | nil => simp [order_by_created_at]
  | cons x xs ih => exact insertByCreated_pairwise x _ ih

/-- A ledger with two ACTIVE 5-TOKENS batches sharing
`created_at = 10`, stored with the younger id *second*: storage order
is [id 2, id 1]. -/
def tieLedger : LedgerState :=
  { batches := [{ exBatch with id := 2 }, exBatch], txns := [],
    nextBatchId := 3, nextTxnId := 100 }

/-- **C6** (counterexample).  The claim says a `created_at` tie is
broken by id, the smaller id consumed first.  The query orders by
`created_at` alone, so tied rows come back in the database's stored
order: with batches of ids 2 and 1 tied at `created_at = 10` and
stored in that order, CONSUME(3) debits batch 2 — the *larger* id —
and leaves batch 1 untouched. -/
theorem C6_counterexample_tie_not_broken_by_id :
    ((consume_quota tieLedger exUser "TOKENS" "usage" 3 none 50).2.txns.map
      fun t => (t.batchId, t.amount)) = [(2, 3)] ∧
    ((consume_quota tieLedger exUser "TOKENS" "usage" 3 none 50).2.batches.map
      fun b => (b.id, b.remaining_quantity)) = [(2, 2), (1, 5)] := by
  exact ⟨rfl, rfl⟩

/-- **C6** (amended).  CONSUME selects exactly the ACTIVE batches of
the user whose product key equals the upper-cased requested key and
whose `expires_at` is null or strictly after `now`, ordered by
`created_at` ascending; rows sharing a `created_at` are returned in
the database's stored order — the query requests no id tie-break. -/
theorem C6_consume_selection (st : LedgerState) (user_id : Nat)
    (key : String) (now : Int) (hkey : key ≠ "") :
    ((order_by_created_at (find_active_batches st user_id (some key) now)).Perm
      (find_active_batches st user_id (some key) now)) ∧
    ((order_by_created_at (find_active_batches st user_id (some key) now)).Pairwise
      fun a b => a.created_at ≤ b.created_at) ∧
    (∀ b, b ∈ order_by_created_at (find_active_batches st user_id (some key) now) ↔
      (b ∈ st.batches ∧ b.userId = user_id ∧ b.state = .ACTIVE ∧
       (b.expires_at = none ∨ ∃ e, b.expires_at = some e ∧ now < e) ∧
       b.productKey = normKey key)) := by
  refine ⟨order_by_created_at_perm _, order_by_created_at_pairwise _, ?_⟩
  intro b
  rw [(order_by_created_at_perm _).mem_iff]
  simp only [find_active_batches]
  rw [if_pos hkey]
  cases hx : b.expires_at with
  | none =>
      simp [List.mem_filter, activeNonExpired, hx, and_assoc]
      tauto
  | some e =>
      simp [List.mem_filter, activeNonExpired, hx, and_assoc]
      tauto

/-- **C6** (witness).  The amended theorem applied at the tie state:
the selection is sorted by `created_at` (trivially, both rows tie). -/
theorem C6_consume_selection_witness :
    ((order_by_created_at (find_active_batches tieLedger exUser
        (some "TOKENS") 50)).Pairwise
      fun a b => a.created_at ≤ b.created_at) :=
  (C6_consume_selection tieLedger exUser "TOKENS" 50 (by decide)).2.1

/-- Relation between a selected batch and the (updated copy,
transaction) pair the FIFO walk produces for it: every identifying
field is preserved, the batch is debited by exactly the transaction's
amount, it is marked EXHAUSTED exactly when its remainder reaches
zero, and the DEBIT transaction carries the action type and the
idempotency key. -/
def touchedRel (user_id : Nat) (action_type : String)
    (idemKey : Option String) (s : QuotaBatch) (ut : QuotaBatch × Txn) :
    Prop :=
  ut.1.id = s.id ∧ ut.1.userId = s.userId ∧
  ut.1.productId = s.productId ∧ ut.1.productKey = s.productKey ∧
  ut.1.orderItemId = s.orderItemId ∧
  ut.1.initial_quantity = s.initial_quantity ∧
  ut.1.expires_at = s.expires_at ∧ ut.1.created_at = s.created_at ∧
  ut.1.remaining_quantity = s.remaining_quantity - ut.2.amount ∧
  ut.1.state = (if ut.1.remaining_quantity = 0 then .EXHAUSTED else s.state) ∧
  ut.2.batchId = s.id ∧ ut.2.userId = user_id ∧
  ut.2.direction = .DEBIT ∧ ut.2.actionType = action_type ∧
  ut.2.idemKey = idemKey

/-- A non-positive `remaining_needed` stops the walk at once. -/
theorem consumeLoop_stop (user_id : Nat) (action_type : String)
    (idemKey : Option String) (bs : List QuotaBatch) (needed : Int)
    (nextId : Nat) (hn : needed ≤ 0) :
    consumeLoop user_id action_type idemKey bs needed nextId =
      ([], [], nextId) := by
  cases bs with
  | nil => rfl
  | cons b bs =>
      rw [consumeLoop, if_pos hn]

/-- Structure of the FIFO walk: it touches a prefix of the selected
batches, producing one updated batch and one transaction per touched
batch, pointwise related by `touchedRel`. -/
theorem consumeLoop_spec (user_id : Nat) (action_type : String)
    (idemKey : Option String) :
    ∀ (bs : List QuotaBatch) (needed : Int) (nextId : Nat)
      (ubs : List QuotaBatch) (txs : List Txn) (nid : Nat),
      consumeLoop user_id action_type idemKey bs needed nextId =
        (ubs, txs, nid) →
      txs.length = ubs.length ∧ ubs.length ≤ bs.length ∧
      List.Forall₂ (touchedRel user_id action_type idemKey)
        (bs.take ubs.length) (ubs.zip txs) := by
  intro bs
  induction bs with
  | nil =>
      intro needed nextId ubs txs nid h
      rw [consumeLoop] at h
      rw [Prod.mk.injEq, Prod.mk.injEq] at h
      obtain ⟨h1, h2, h3⟩ := h
      subst h1
      subst h2
      simp
  | cons b bs ih =>
      intro needed nextId ubs txs nid h
      by_cases hn : needed ≤ 0
      · rw [consumeLoop_stop _ _ _ _ _ _ hn] at h
        rw [Prod.mk.injEq, Prod.mk.injEq] at h
        obtain ⟨h1, h2, h3⟩ := h
        subst h1
        subst h2
        simp
      · rw [consumeLoop, if_neg hn] at h
        rcases hrec : consumeLoop user_id action_type idemKey bs
            (needed - min b.remaining_quantity needed) (nextId + 1)
          with ⟨ubs', txs', nid'⟩
        simp only [hrec] at h
        rw [Prod.mk.injEq, Prod.mk.injEq] at h
        obtain ⟨h1, h2, h3⟩ := h
        subst h1
        subst h2
        obtain ⟨l1, l2, l3⟩ := ih _ _ _ _ _ hrec
        refine ⟨by simp [l1], by simpa using Nat.succ_le_succ l2, ?_⟩
        simp only [List.length_cons, List.take_succ_cons, List.zip_cons_cons]
        refine List.Forall₂.cons ?_ l3
        refine ⟨rfl, rfl, rfl, rfl, rfl, rfl, rfl, rfl, rfl, ?_, rfl, rfl,
          rfl, rfl, rfl⟩
        by_cases h0 :
            b.remaining_quantity - min b.remaining_quantity needed = 0 <;>
          simp [h0]

/-- Every transaction the walk emits is a DEBIT of the given user,
action type and idempotency key. -/
theorem consumeLoop_txn_fields (user_id : Nat) (action_type : String)
    (idemKey : Option String) :
    ∀ (bs : List QuotaBatch) (needed : Int) (nextId : Nat),
      ∀ t ∈ (consumeLoop user_id action_type idemKey bs needed nextId).2.1,
        t.userId = user_id ∧ t.direction = .DEBIT ∧
        t.actionType = action_type ∧ t.idemKey = idemKey := by
  intro bs
  induction bs with
  | nil =>
      intro needed nextId t ht
      simp [consumeLoop] at ht
  | cons b bs ih =>
      intro needed nextId t ht
      by_cases hn : needed ≤ 0
      · rw [consumeLoop_stop _ _ _ _ _ _ hn] at ht
        simp at ht
      · rw [consumeLoop, if_neg hn] at ht
        rcases List.mem_cons.mp ht with rfl | ht
        · exact ⟨rfl, rfl, rfl, rfl⟩
        · exact ih _ _ t ht

/-- Every touched batch except possibly the last is drained to zero
(its debit was `min(remaining, needed) = remaining`). -/
theorem consumeLoop_drains (user_id : Nat) (action_type : String)
    (idemKey : Option String) :
    ∀ (bs : List QuotaBatch) (needed : Int) (nextId : Nat)
      (ubs : List QuotaBatch) (txs : List Txn) (nid : Nat),
      consumeLoop user_id action_type idemKey bs needed nextId =
        (ubs, txs, nid) →
      ∀ ut ∈ (ubs.zip txs).dropLast, ut.1.remaining_quantity = 0 := by
  intro bs
  induction bs with
  | nil =>
      intro needed nextId ubs txs nid h ut hut
      rw [consumeLoop] at h
      rw [Prod.mk.injEq, Prod.mk.injEq] at h
      obtain ⟨h1, h2, h3⟩ := h
      subst h1
      subst h2
      simp at hut
  | cons b bs ih =>
      intro needed nextId ubs txs nid h ut hut
      by_cases hn : needed ≤ 0
      · rw [consumeLoop_stop _ _ _ _ _ _ hn] at h
        rw [Prod.mk.injEq, Prod.mk.injEq] at h
        obtain ⟨h1, h2, h3⟩ := h
        subst h1
        subst h2
        simp at hut
      · rw [consumeLoop, if_neg hn] at h
        rcases hrec : consumeLoop user_id action_type idemKey bs
            (needed - min b.remaining_quantity needed) (nextId + 1)
          with ⟨ubs', txs', nid'⟩
        simp only [hrec] at h
        rw [Prod.mk.injEq, Prod.mk.injEq] at h
        obtain ⟨h1, h2, h3⟩ := h
        subst h1
        subst h2
        rw [List.zip_cons_cons] at hut
        cases hz : ubs'.zip txs' with
        | nil =>
            rw [hz] at hut
            simp at hut
        | cons p ps =>
            rw [hz, List.dropLast_cons₂] at hut
            rcases List.mem_cons.mp hut with rfl | hut
            · have hpos : 0 < needed - min b.remaining_quantity needed := by
                by_contra hle
                push_neg at hle
                rw [consumeLoop_stop _ _ _ _ _ _ hle] at hrec
                rw [Prod.mk.injEq, Prod.mk.injEq] at hrec
                obtain ⟨e1, e2, e3⟩ := hrec
                subst e1
                simp at hz
              show b.remaining_quantity -
                min b.remaining_quantity needed = 0
              omega
            · refine ih _ _ _ _ _ hrec ut ?_
              rw [hz]
              exact hut

/-- The walk debits exactly the requested amount when the selected
batches (all with non-negative remainder) can cover it. -/
theorem consumeLoop_sum (user_id : Nat) (action_type : String)
    (idemKey : Option String) :
    ∀ (bs : List QuotaBatch) (needed : Int) (nextId : Nat)
      (ubs : List QuotaBatch) (txs : List Txn) (nid : Nat),
      consumeLoop user_id action_type idemKey bs needed nextId =
        (ubs, txs, nid) →
      0 ≤ needed →
      (∀ b ∈ bs, 0 ≤ b.remaining_quantity) →
      needed ≤ (bs.map (·.remaining_quantity)).sum →
      (txs.map (·.amount)).sum = needed := by
  intro bs
  induction bs with
  | nil =>
      intro needed nextId ubs txs nid h h0 hrem hle
      rw [consumeLoop] at h
      rw [Prod.mk.injEq, Prod.mk.injEq] at h
      obtain ⟨h1, h2, h3⟩ := h
      subst h2
      simp at hle ⊢
      omega
  | cons b bs ih =>
      intro needed nextId ubs txs nid h h0 hrem hle
      by_cases hn : needed ≤ 0
      · rw [consumeLoop_stop _ _ _ _ _ _ hn] at h
        rw [Prod.mk.injEq, Prod.mk.injEq] at h
        obtain ⟨h1, h2, h3⟩ := h
        subst h2
        simp
        omega
      · rw [consumeLoop, if_neg hn] at h
        rcases hrec : consumeLoop user_id action_type idemKey bs
            (needed - min b.remaining_quantity needed) (nextId + 1)
          with ⟨ubs', txs', nid'⟩
        simp only [hrec] at h
        rw [Prod.mk.injEq, Prod.mk.injEq] at h
        obtain ⟨h1, h2, h3⟩ := h
        subst h2
        have hb : 0 ≤ b.remaining_quantity := hrem b (by simp)
        have hbs : ∀ x ∈ bs, 0 ≤ x.remaining_quantity := fun x hx =>
          hrem x (List.mem_cons_of_mem b hx)
        have hsums : 0 ≤ (bs.map (·.remaining_quantity)).sum := by
          apply List.sum_nonneg
          intro x hx
          obtain ⟨c, hc, rfl⟩ := List.mem_map.mp hx
          exact hbs c hc
        rw [List.map_cons, List.sum_cons] at hle
        have hih := ih (needed - min b.remaining_quantity needed)
          (nextId + 1) ubs' txs' nid' hrec (by omega) hbs (by omega)
        simp only [List.map_cons, List.sum_cons, hih]
        omega

/-- The (5, 5) FIFO ledger: two ACTIVE 5-TOKENS batches, the older
(id 1, created 10) before the newer (id 2, created 20). -/
def fifoLedger : LedgerState :=
  { batches := [exBatch, { exBatch with id := 2, created_at := 20 }],
    txns := [], nextBatchId := 3, nextTxnId := 100 }

/-- **C3**.  The successful FIFO walk: it touches a prefix of the
selected batches oldest-first; each touched batch is debited by
exactly the amount of the one DEBIT transaction emitted for it and is
marked EXHAUSTED exactly when its remainder reaches zero
(`touchedRel`); every touched batch except possibly the last is
drained (its debit was `min(remaining, needed) = remaining`); the
emitted amounts sum to the requested amount when the batches cover it
(the walk stops once the amount is covered).  In particular, for two
ACTIVE batches of 5 and 5, CONSUME(7) debits 5 from the older batch
(which becomes EXHAUSTED with remainder 0) and 2 from the newer
(remainder 3), emitting exactly those two DEBIT transactions. -/
theorem C3_consume_fifo_walk :
    (∀ (user_id : Nat) (action_type : String) (idemKey : Option String)
       (bs : List QuotaBatch) (needed : Int) (nextId : Nat)
       (ubs : List QuotaBatch) (txs : List Txn) (nid : Nat),
      consumeLoop user_id action_type idemKey bs needed nextId =
        (ubs, txs, nid) →
      (txs.length = ubs.length ∧ ubs.length ≤ bs.length ∧
       List.Forall₂ (touchedRel user_id action_type idemKey)
         (bs.take ubs.length) (ubs.zip txs) ∧
       (∀ ut ∈ (ubs.zip txs).dropLast, ut.1.remaining_quantity = 0) ∧
       (0 ≤ needed → (∀ b ∈ bs, 0 ≤ b.remaining_quantity) →
         needed ≤ (bs.map (·.remaining_quantity)).sum →
         (txs.map (·.amount)).sum = needed))) ∧
    consume_quota fifoLedger exUser "TOKENS" "usage" 7 none 50 =
      (.okNew 101 3,
       { batches :=
           [{ exBatch with remaining_quantity := 0, state := .EXHAUSTED },
            { exBatch with
                id := 2
                created_at := 20
                remaining_quantity := 3 }],
         txns :=
           [{ id := 100, userId := exUser, batchId := 1, amount := 5,
              direction := .DEBIT, actionType := "usage", idemKey := none },
            { id := 101, userId := exUser, batchId := 2, amount := 2,
              direction := .DEBIT, actionType := "usage", idemKey := none }],
         nextBatchId := 3, nextTxnId := 102 }) := by
  constructor
  · intro user_id action_type idemKey bs needed nextId ubs txs nid h
    obtain ⟨l1, l2, l3⟩ := consumeLoop_spec user_id action_type idemKey
      bs needed nextId ubs txs nid h
    exact ⟨l1, l2, l3,
      consumeLoop_drains user_id action_type idemKey bs needed nextId
        ubs txs nid h,
      fun h0 hrem hle => consumeLoop_sum user_id action_type idemKey
        bs needed nextId ubs txs nid h h0 hrem hle⟩
  · rfl

/-- **C3** (witness).  The general walk description applied to the
concrete (5, 5) selection with needed 7: the emitted amounts sum
to 7. -/
theorem C3_consume_fifo_walk_witness :
    ((consumeLoop exUser "usage" none
        [exBatch, { exBatch with id := 2, created_at := 20 }] 7
        100).2.1.map (·.amount)).sum = 7 :=
  (C3_consume_fifo_walk.1 exUser "usage" none
      [exBatch, { exBatch with id := 2, created_at := 20 }] 7 100
      _ _ _ rfl).2.2.2.2 (by decide) (by decide) (by decide)

/-- Every failing `consume_quota` call leaves the state unchanged
(both explicit failure replies and the modelled `IndexError`, whose
atomic block had written nothing). -/
theorem consume_quota_fail_state (st : LedgerState) (user_id : Nat)
    (product_key action_type : String) (amount : Int)
    (idempotency_key : Option String) (now : Int) (r : ConsumeResult)
    (st' : LedgerState)
    (h : consume_quota st user_id product_key action_type amount
      idempotency_key now = (r, st'))
    (hr : r.success = false) : st' = st := by
  have hcore : consumeCore st user_id product_key action_type
      amount idempotency_key now = (r, st') → st' = st := by
    intro hc
    unfold consumeCore at hc
    split at hc
    · cases hc
      rfl
    · dsimp only at hc
      split at hc
      · cases hc
        rfl
      · split at hc
        · cases hc
          rfl
        · cases hc
          simp [ConsumeResult.success] at hr
  unfold consume_quota at h
  split at h
  · split at h
    · split at h
      · cases h
        rfl
      · exact hcore h
    · exact hcore h
  · exact hcore h

/-- The grant loop appends one ACTIVE batch and one CREDIT transaction
per offer item, touching nothing already stored. -/
theorem grantItems_appends (addM addY : Int → Int → Int) (user_id : Nat)
    (order_item : Option OrderItem) (source : String) (now : Int) :
    ∀ (items : List OfferItem) (st : LedgerState),
      ∃ nb nt,
        (grantItems addM addY user_id order_item source now
          items st).2.batches = st.batches ++ nb ∧
        (grantItems addM addY user_id order_item source now
          items st).2.txns = st.txns ++ nt ∧
        nb.length = items.length ∧ nt.length = items.length ∧
        (∀ t ∈ nt, t.direction = .CREDIT ∧ t.actionType = source) := by
  intro items
  induction items with
  | nil =>
      intro st
      exact ⟨[], [], by simp [grantItems], by simp [grantItems], rfl, rfl,
        by simp⟩
  | cons item rest ih =>
      intro st
      obtain ⟨nb, nt, h1, h2, h3, h4, h5⟩ := ih
        ({ st with
            batches := st.batches ++
              [grantBatch addM addY user_id order_item now item st]
            txns := st.txns ++
              [grantTxn user_id order_item source item st]
            nextBatchId := st.nextBatchId + 1
            nextTxnId := st.nextTxnId + 1 })
      refine ⟨grantBatch addM addY user_id order_item now item st :: nb,
        grantTxn user_id order_item source item st :: nt, ?_, ?_,
        by simp [h3], by simp [h4], ?_⟩
      · simp only [grantItems]
        rw [h1]
        simp
      · simp only [grantItems]
        rw [h2]
        simp
      · intro t ht
        rcases List.mem_cons.mp ht with rfl | ht
        · exact ⟨rfl, rfl⟩
        · exact h5 t ht

/-- The order-confirmation grant loop appends, per order item with a
non-null offer, that offer's items as batches plus matching CREDIT
`purchase` transactions. -/
theorem grantOrderItems_appends (addM addY : Int → Int → Int)
    (user_id : Nat) (now : Int) :
    ∀ (items : List OrderItem) (led : LedgerState),
      ∃ nb nt,
        (grantOrderItems addM addY user_id now items led).batches =
          led.batches ++ nb ∧
        (grantOrderItems addM addY user_id now items led).txns =
          led.txns ++ nt ∧
        nb.length = (items.map fun it =>
          match it.offer with
          | some off => off.items.length
          | none => 0).sum ∧
        nt.length = (items.map fun it =>
          match it.offer with
          | some off => off.items.length
          | none => 0).sum ∧
        (∀ t ∈ nt, t.direction = .CREDIT ∧ t.actionType = "purchase") := by
  intro items
  induction items with
  | nil =>
      intro led
      exact ⟨[], [], by simp [grantOrderItems], by simp [grantOrderItems],
        by simp, by simp, by simp⟩
  | cons item rest ih =>
      intro led
      simp only [grantOrderItems]
      cases hoff : item.offer with
      | none =>
          obtain ⟨nb, nt, h1, h2, h3, h4, h5⟩ := ih led
          exact ⟨nb, nt, h1, h2, by simp [hoff, h3], by simp [hoff, h4], h5⟩
      | some off =>
          obtain ⟨gb, gt, g1, g2, g3, g4, g5⟩ :=
            grantItems_appends addM addY user_id (some item) "purchase" now
              off.items led
          obtain ⟨nb, nt, h1, h2, h3, h4, h5⟩ := ih
            (grant_offer addM addY led user_id off (some item)
              "purchase" now).2
          refine ⟨gb ++ nb, gt ++ nt, ?_, ?_, ?_, ?_, ?_⟩
          · rw [h1]
            unfold grant_offer
            rw [g1, List.append_assoc]
          · rw [h2]
            unfold grant_offer
            rw [g2, List.append_assoc]
          · simp [hoff, g3, h3]
          · simp [hoff, g4, h4]
          · intro t ht
            rcases List.mem_append.mp ht with ht | ht
            · exact g5 t ht
            · exact h5 t ht

/-- **C8**.  EXCHANGE reads the offer's `currency` (stripped,
upper-cased) as a product key: it fails without touching the state
when no product carries that key or the product has
`is_currency = false`; otherwise it consumes `int(offer.price)` units
of that product with action type `exchange` and only then grants the
offer — and whenever that embedded CONSUME fails, the failure is
returned as-is, no batch is granted, and no ledger row changes. -/
theorem C8_exchange_currency_then_grant (addM addY : Int → Int → Int)
    (products : List Product) (st : LedgerState) (user_id : Nat)
    (offer : Offer) (now : Int) :
    (products.find? (fun p =>
        p.product_key == normKey (pyStrip offer.currency)) = none →
      exchange addM addY products st user_id offer now =
        (.currencyNotFound, st)) ∧
    (∀ p, products.find? (fun p =>
        p.product_key == normKey (pyStrip offer.currency)) = some p →
      p.is_currency = false →
      exchange addM addY products st user_id offer now =
        (.notCurrency, st)) ∧
    (∀ p, products.find? (fun p =>
        p.product_key == normKey (pyStrip offer.currency)) = some p →
      p.is_currency = true →
      ∀ r stc, consume_quota st user_id p.product_key "exchange"
          offer.price none now = (r, stc) →
        ((r.success = false →
          exchange addM addY products st user_id offer now =
            (.consumeFailed r, st)) ∧
         (r.success = true →
          exchange addM addY products st user_id offer now =
            (.ok, (grant_offer addM addY stc user_id offer none
              "exchange" now).2)))) := by
  refine ⟨?_, ?_, ?_⟩
  · intro hf
    simp [exchange, hf]
  · intro p hf hcur
    simp [exchange, hf, hcur]
  · intro p hf hcur r stc hc
    constructor
    · intro hr
      have hst : stc = st := consume_quota_fail_state st user_id
        p.product_key "exchange" offer.price none now r stc hc hr
      subst hst
      simp [exchange, hf, hcur, hc, hr]
    · intro hr
      simp [exchange, hf, hcur, hc, hr]

/-- A currency product for the exchange example. -/
def exCurrency : Product :=
  { id := 2, product_key := "INTERNAL", is_currency := true }

/-- An exchange-payable offer: price 300, currency `internal`. -/
def exExchangeOffer : Offer :=
  { exOffer with currency := "internal", price := 300 }

/-- **C8** (witness).  Exchanging against an empty ledger: the embedded
CONSUME fails with `quota_exhausted` and the exchange returns that
failure with the state untouched. -/
theorem C8_exchange_currency_then_grant_witness :
    exchange (fun n _ => n) (fun n _ => n) [exCurrency]
        { batches := [], txns := [], nextBatchId := 1, nextTxnId := 1 }
        exUser exExchangeOffer 50 =
      (.consumeFailed .quotaExhausted,
       { batches := [], txns := [], nextBatchId := 1, nextTxnId := 1 }) :=
  ((C8_exchange_currency_then_grant (fun n _ => n) (fun n _ => n)
      [exCurrency]
      { batches := [], txns := [], nextBatchId := 1, nextTxnId := 1 }
      exUser exExchangeOffer 50).2.2 exCurrency (by rfl) rfl
    .quotaExhausted
    { batches := [], txns := [], nextBatchId := 1, nextTxnId := 1 }
    rfl).1 rfl

/-- **C9**.  CONFIRM is idempotent for paid orders: on an already-PAID
order it returns success and changes nothing; and after
CONFIRM; CONFIRM on a PENDING order the order is PAID, the second call
returned success without re-granting (the state after both calls is
the state after the first), and the first call appended exactly one
batch and one CREDIT transaction per offer item of each order item's
offer — grants happen exactly once. -/
theorem C9_confirm_idempotent (addM addY : Int → Int → Int)
    (st : SysState) (order_id : Nat) (pid pid2 : Option String)
    (pm pm2 : String) (now now2 : Int) (o : Order)
    (hfind : st.orders.find? (fun o => o.id == order_id) = some o) :
    (o.status = .PAID →
      process_payment addM addY st order_id pid pm now = some (true, st)) ∧
    (o.status = .PENDING →
      ∀ st1, process_payment addM addY st order_id pid pm now =
          some (true, st1) →
        process_payment addM addY st1 order_id pid2 pm2 now2 =
            some (true, st1) ∧
        orderStatus st1 order_id = some .PAID ∧
        (∃ nb nt,
          st1.ledger.batches = st.ledger.batches ++ nb ∧
          st1.ledger.txns = st.ledger.txns ++ nt ∧
          nb.length = (o.items.map fun it =>
            match it.offer with
            | some off => off.items.length
            | none => 0).sum ∧
          nt.length = (o.items.map fun it =>
            match it.offer with
            | some off => off.items.length
            | none => 0).sum ∧
          (∀ t ∈ nt, t.direction = .CREDIT))) := by
  constructor
  · intro h
    simp [process_payment, hfind, h]
  · intro h st1 h1
    have hoid : o.id = order_id := by
      simpa using List.find?_some hfind
    have hnp : ¬ o.status = OrderStatus.PAID := by
      rw [h]
      intro hx
      cases hx
    simp only [process_payment, hfind] at h1
    rw [if_neg hnp] at h1
    have hst1 :
        ({ ledger := grantOrderItems addM addY o.userId now
             ({ o with
                  status := OrderStatus.PAID
                  payment_id := pid
                  payment_method := pm
                  paid_at := some now }).items st.ledger,
           orders := st.orders.map fun p =>
             if p.id == order_id then
               { o with
                  status := OrderStatus.PAID
                  payment_id := pid
                  payment_method := pm
                  paid_at := some now }
             else p } : SysState) = st1 := by
      simpa using h1
    have key := find?_map_replace st.orders order_id o
      ({ o with
          status := OrderStatus.PAID
          payment_id := pid
          payment_method := pm
          paid_at := some now }) hfind hoid
    refine ⟨?_, ?_, ?_⟩
    · rw [← hst1]
      simp only [process_payment, key]
      simp
    · rw [← hst1]
      unfold orderStatus
      simp only [key]
      rfl
    · rw [← hst1]
      obtain ⟨nb, nt, h1', h2', h3', h4', h5'⟩ :=
        grantOrderItems_appends addM addY o.userId now o.items st.ledger
      exact ⟨nb, nt, h1', h2', h3', h4', fun t ht => (h5' t ht).1⟩

/-- The system state after the first CONFIRM of the PENDING example
order (order PAID; one 100-TOKENS batch and one CREDIT `purchase`
transaction granted). -/
def exSysPaid : SysState :=
  { ledger :=
      { batches :=
          [{ id := 1, userId := exUser, productId := 1,
             productKey := "TOKENS", orderItemId := some 1,
             initial_quantity := 100, remaining_quantity := 100,
             expires_at := none, state := .ACTIVE, created_at := 50 }],
        txns :=
          [{ id := 1, userId := exUser, batchId := 1, amount := 100,
             direction := .CREDIT, actionType := "purchase",
             idemKey := none }],
        nextBatchId := 2, nextTxnId := 2 },
    orders :=
      [{ id := 1, userId := exUser, status := .PAID,
         payment_id := some "PAY-1", payment_method := "wire",
         paid_at := some 50,
         items := [{ id := 1, offer := some exOffer, quantity := 1 }] }] }

/-- **C9** (witness).  Confirming the PENDING example order and then
confirming again: the second CONFIRM returns success and leaves the
state after the first CONFIRM untouched. -/
theorem C9_confirm_idempotent_witness :
    process_payment (fun n _ => n) (fun n _ => n) exSysPaid 1
        (some "PAY-2") "wire" 60 = some (true, exSysPaid) :=
  ((C9_confirm_idempotent (fun n _ => n) (fun n _ => n) (exSys .PENDING) 1
      (some "PAY-1") (some "PAY-2") "wire" "wire" 50 60
      (exOrder .PENDING) rfl).2 rfl exSysPaid rfl).1

/-- Filtering before summing equals summing a weight that vanishes
outside the filter. -/
theorem sum_filter_map (l : List QuotaBatch) (q : QuotaBatch → Bool)
    (f : QuotaBatch → Int) :
    ((l.filter q).map f).sum =
      (l.map (fun b => if q b then f b else 0)).sum := by
  induction l with
  | nil => simp
  | cons b bs ih =>
      by_cases hb : q b <;>
        simp [List.filter_cons, hb, ih]

/-- The balance weight of one stored batch: its `remaining_quantity`
when the `_find_active_batches` filters admit it, 0 otherwise. -/
def balWeight (user_id : Nat) (key : String) (now : Int)
    (b : QuotaBatch) : Int :=
  if b.userId == user_id && activeNonExpired now b then
    (if b.productKey == normKey key then b.remaining_quantity else 0)
  else 0

/-- `get_balance` is the sum of balance weights over the whole stored
table. -/
theorem get_balance_eq_weight_sum (st : LedgerState) (user_id : Nat)
    (key : String) (now : Int) (hkey : key ≠ "") :
    get_balance st user_id key now =
      (st.batches.map (balWeight user_id key now)).sum := by
  unfold get_balance
  simp only [find_active_batches]
  rw [if_pos hkey, sum_filter_map, sum_filter_map]
  apply congrArg
  apply List.map_congr_left
  intro b _
  by_cases h1 : (b.userId == user_id && activeNonExpired now b) = true <;>
    by_cases h2 : (b.productKey == normKey key) = true <;>
      simp [balWeight, h1, h2]

/-- `find?` by id commutes with an id-preserving map. -/
theorem find?_map_id_preserving (f : QuotaBatch → QuotaBatch)
    (hf : ∀ b, (f b).id = b.id) (db : List QuotaBatch) (bid : Nat) :
    (db.map f).find? (fun b => b.id == bid) =
      (db.find? (fun b => b.id == bid)).map f := by
  induction db with
  | nil => simp
  | cons b bs ih =>
      by_cases hb : b.id = bid
      · have h1 : ((f b).id == bid) = true := by
          simp [hf, hb]
        have h2 : (b.id == bid) = true := by
          simp [hb]
        simp [List.find?_cons, h1, h2]
      · have h1 : ((f b).id == bid) = false := by
          simp [hf, hb]
        have h2 : (b.id == bid) = false := by
          simp [hb]
        simp [List.find?_cons, h1, h2, ih]

/-- In a table with no duplicate ids, `find?` by id returns exactly the
member with that id. -/
theorem find?_of_mem_nodup (l : List QuotaBatch) (u : QuotaBatch)
    (bid : Nat) (hmem : u ∈ l) (hid : u.id = bid)
    (hnd : (l.map (·.id)).Nodup) :
    l.find? (fun v => v.id == bid) = some u := by
  induction l with
  | nil => simp at hmem
  | cons b bs ih =>
      rw [List.map_cons, List.nodup_cons] at hnd
      rcases List.mem_cons.mp hmem with rfl | hmem
      · simp [List.find?_cons, hid]
      · have hb : (b.id == bid) = false := by
          have : b.id ≠ u.id := by
            intro hx
            exact hnd.1 (hx ▸ List.mem_map_of_mem (·.id) hmem)
          simp [hid ▸ this]
        simp [List.find?_cons, hb, ih hmem hnd.2]

/-- The per-row rewrite of `applyBatchUpdates` preserves the row id. -/
theorem applyBatchUpdates_row_id (upd : List QuotaBatch)
    (b : QuotaBatch) :
    (((upd.find? (fun u => u.id == b.id)).getD b)).id = b.id := by
  cases hf : upd.find? (fun u => u.id == b.id) with
  | none => rfl
  | some v =>
      have := List.find?_some hf
      simpa using this

/-- A `find?` hit in the left part of an append is a hit in the
whole. -/
theorem find?_append_of_some (l₁ l₂ : List Txn) (p : Txn → Bool)
    (t : Txn) (h : l₁.find? p = some t) :
    (l₁ ++ l₂).find? p = some t := by
  rw [List.find?_append, h]
  rfl

/-- `find?` over a list all of whose members match is `head?`. -/
theorem find?_eq_head?_of_all (l : List Txn) (p : Txn → Bool)
    (h : ∀ x ∈ l, p x = true) : l.find? p = l.head? := by
  cases l with
  | nil => rfl
  | cons x xs =>
      rw [List.find?_cons_of_pos _ (h x (by simp))]
      rfl

/-- Writing back no updates leaves the table unchanged. -/
theorem applyBatchUpdates_nil (db : List QuotaBatch) :
    applyBatchUpdates db [] = db := by
  simp [applyBatchUpdates]

/-- Writing back a batch whose id reappears in no later update, then
the rest, equals first rewriting its row alone. -/
theorem applyBatchUpdates_cons (db : List QuotaBatch) (u : QuotaBatch)
    (rest : List QuotaBatch) (h : ∀ v ∈ rest, (v.id == u.id) = false) :
    applyBatchUpdates db (u :: rest) =
      applyBatchUpdates (db.map fun b => if b.id == u.id then u else b)
        rest := by
  unfold applyBatchUpdates
  rw [List.map_map]
  apply List.map_congr_left
  intro b _
  by_cases hb : b.id = u.id
  · have hub : (u.id == b.id) = true := by
      simp [hb]
    have hfr : rest.find? (fun v => v.id == u.id) = none := by
      rw [List.find?_eq_none]
      intro v hv
      simp [h v hv]
    simp [Function.comp, List.find?_cons, hub, hb, hfr]
  · have hub : (u.id == b.id) = false := by
      simp [Ne.symm hb]
    simp [Function.comp, List.find?_cons, hub, hb]

/-- Rewriting a single row by id changes the weight sum by exactly that
row's weight difference. -/
theorem sum_map_updateOne (w : QuotaBatch → Int) :
    ∀ (db : List QuotaBatch) (u s : QuotaBatch),
      (db.map (·.id)).Nodup → s ∈ db → u.id = s.id →
      ((db.map fun b => if b.id == u.id then u else b).map w).sum =
        (db.map w).sum - (w s - w u) := by
  intro db
  induction db with
  | nil =>
      intro u s _ hs _
      simp at hs
  | cons b bs ih =>
      intro u s hnd hs hid
      rw [List.map_cons, List.nodup_cons] at hnd
      rcases List.mem_cons.mp hs with rfl | hs
      · have hb : (s.id == u.id) = true := by
          simp [hid]
        have hrest : (bs.map fun b => if b.id == u.id then u else b) = bs := by
          have : ∀ c ∈ bs, (if c.id == u.id then u else c) = c := by
            intro c hc
            have : c.id ≠ u.id := by
              intro hx
              exact hnd.1 (by
                rw [hid] at hx
                exact hx ▸ List.mem_map_of_mem (·.id) hc)
            simp [this]
          rw [List.map_congr_left this]
          simp
        simp only [List.map_cons, hb, if_true, hrest, List.sum_cons]
        omega
      · have hb : (b.id == u.id) = false := by
          have : b.id ≠ u.id := by
            intro hx
            refine hnd.1 ?_
            rw [hx, hid]
            exact List.mem_map_of_mem (·.id) hs
          simp [this]
        simp only [List.map_cons, hb, Bool.false_eq_true, if_false,
          List.sum_cons, ih u s hnd.2 hs hid]
        omega

/-- Writing back a list of updated rows (each carrying the id of a
distinct stored row) subtracts the summed weight differences. -/
theorem sum_map_applyBatchUpdates (w : QuotaBatch → Int) :
    ∀ (trip : List (QuotaBatch × QuotaBatch × Txn)) (db : List QuotaBatch),
      (db.map (·.id)).Nodup →
      (trip.map (fun x => x.2.1.id)).Nodup →
      (∀ x ∈ trip, x.1 ∈ db ∧ x.2.1.id = x.1.id) →
      ((applyBatchUpdates db (trip.map (fun x => x.2.1))).map w).sum =
        (db.map w).sum - (trip.map (fun x => w x.1 - w x.2.1)).sum := by
  intro trip
  induction trip with
  | nil =>
      intro db _ _ _
      simp [applyBatchUpdates_nil]
  | cons x rest ih =>
      intro db hdb hids hmem
      rw [List.map_cons, List.nodup_cons] at hids
      rw [List.map_cons, applyBatchUpdates_cons db x.2.1 _ ?later]
      case later =>
        intro v hv
        obtain ⟨y, hy, rfl⟩ := List.mem_map.mp hv
        have : y.2.1.id ≠ x.2.1.id := by
          intro hx
          exact hids.1 (hx ▸ List.mem_map_of_mem (fun z => z.2.1.id) hy)
        simp [this]
      have hx := hmem x (by simp)
      have hdb' : ((db.map fun b => if b.id == x.2.1.id then x.2.1 else b).map
          (·.id)).Nodup := by
        rw [List.map_map]
        have : ((·.id) ∘ fun b => if b.id == x.2.1.id then x.2.1 else b) =
            fun b : QuotaBatch => b.id := by
          funext b
          by_cases hb : b.id = x.2.1.id
          · simp [Function.comp, hb]
          · simp [Function.comp, hb]
        rw [this]
        exact hdb
      have hmem' : ∀ y ∈ rest, y.1 ∈
          (db.map fun b => if b.id == x.2.1.id then x.2.1 else b) ∧
          y.2.1.id = y.1.id := by
        intro y hy
        have hym := hmem y (List.mem_cons_of_mem x hy)
        have hne : y.1.id ≠ x.2.1.id := by
          intro hx
          refine hids.1 ?_
          have : y.2.1.id = x.2.1.id := by
            rw [hym.2, hx]
          exact this ▸ List.mem_map_of_mem (fun z => z.2.1.id) hy
        refine ⟨?_, hym.2⟩
        have : (if y.1.id == x.2.1.id then x.2.1 else y.1) = y.1 := by
          simp [hne]
        exact this ▸ List.mem_map_of_mem _ hym.1
      rw [ih _ hdb' hids.2 hmem',
        sum_map_updateOne w db x.2.1 x.1 hdb hx.1 hx.2]
      simp only [List.map_cons, List.sum_cons]
      omega

/-- The walk's updated batches carry the ids of the batches they came
from. -/
theorem touched_ids (user_id : Nat) (action_type : String)
    (idemKey : Option String) :
    ∀ (ss : List QuotaBatch) (uts : List (QuotaBatch × Txn)),
      List.Forall₂ (touchedRel user_id action_type idemKey) ss uts →
      uts.map (fun x => x.1.id) = ss.map (·.id) := by
  intro ss uts hf
  induction hf with
  | nil => rfl
  | cons hR _ ih =>
      simp only [List.map_cons, ih, hR.1]

/-- Everything CONSUME selects lies in the stored table and passes both
`_find_active_batches` filters. -/
theorem selected_facts (st : LedgerState) (user_id : Nat) (key : String)
    (now : Int) (hkey : key ≠ "") :
    ∀ b ∈ order_by_created_at (find_active_batches st user_id
        (some key) now),
      b ∈ st.batches ∧
      (b.userId == user_id && activeNonExpired now b) = true ∧
      (b.productKey == normKey key) = true := by
  intro b hb
  rw [(order_by_created_at_perm _).mem_iff] at hb
  simp only [find_active_batches] at hb
  rw [if_pos hkey, List.mem_filter] at hb
  obtain ⟨hb1, hb2⟩ := hb
  rw [List.mem_filter] at hb1
  exact ⟨hb1.1, hb1.2, hb2⟩

/-- When stored ids are unique, so are the ids of the selection. -/
theorem selected_nodup (st : LedgerState) (user_id : Nat) (key : String)
    (now : Int) (hnd : (st.batches.map (·.id)).Nodup) :
    ((order_by_created_at (find_active_batches st user_id (some key)
      now)).map (·.id)).Nodup := by
  rw [((order_by_created_at_perm (find_active_batches st user_id (some key)
    now)).map (·.id)).nodup_iff]
  have hsub : (find_active_batches st user_id (some key) now).Sublist
      st.batches := by
    simp only [find_active_batches]
    split
    · exact (List.filter_sublist _).trans (List.filter_sublist _)
    · exact List.filter_sublist _
  exact hnd.sublist (hsub.map (·.id))

/-- Per touched batch, the balance-weight drop equals the emitted DEBIT
amount (an exhausted batch leaves the balance filter carrying weight
zero, which is exactly its remainder). -/
theorem weights_diff_eq_amounts (user_id : Nat) (key : String) (now : Int)
    (action_type : String) (idemKey : Option String) :
    ∀ (ss : List QuotaBatch) (uts : List (QuotaBatch × Txn)),
      List.Forall₂ (touchedRel user_id action_type idemKey) ss uts →
      (∀ s ∈ ss, (s.userId == user_id && activeNonExpired now s) = true ∧
        (s.productKey == normKey key) = true) →
      ((ss.zip uts).map fun x => balWeight user_id key now x.1 -
        balWeight user_id key now x.2.1).sum =
        ((uts.map (·.2)).map (·.amount)).sum := by
  intro ss uts hf
  induction hf with
  | nil =>
      intro _
      simp
  | @cons s ut ss' uts' hR hrest ih =>
      intro hsel
      rw [List.zip_cons_cons, List.map_cons, List.sum_cons, List.map_cons,
        List.map_cons, List.sum_cons,
        ih fun x hx => hsel x (List.mem_cons_of_mem s hx)]
      have hs := hsel s (by simp)
      obtain ⟨hid, huser, _, hpk, _, _, hexp, _, hremq, hstate, _, _, _, _, _⟩ :=
        hR
      have hws : balWeight user_id key now s = s.remaining_quantity := by
        unfold balWeight
        rw [if_pos hs.1, if_pos hs.2]
      have hsActive : s.state = .ACTIVE := by
        have := hs.1
        rw [Bool.and_eq_true] at this
        unfold activeNonExpired at this
        rw [Bool.and_eq_true] at this
        exact beq_iff_eq.mp this.2.1
      by_cases hz : ut.1.remaining_quantity = 0
      · have hwu : balWeight user_id key now ut.1 = 0 := by
          unfold balWeight activeNonExpired
          rw [hstate, if_pos hz]
          simp
        rw [hws, hwu]
        omega
      · have hwu : balWeight user_id key now ut.1 =
            ut.1.remaining_quantity := by
          unfold balWeight
          rw [if_pos ?c1, if_pos ?c2]
          case c1 =>
            unfold activeNonExpired
            rw [huser, hstate, if_neg hz, hsActive, hexp]
            have := hs.1
            unfold activeNonExpired at this
            rw [hsActive] at this
            simpa using this
          case c2 =>
            rw [hpk]
            exact hs.2
        rw [hws, hwu]
        omega

/-- Inversion of a successful `consumeCore` run: the selection was
non-empty and covering, the walk emitted at least one transaction, the
reply echoes the last one's id, and the new state is the written-back
table plus the appended transactions. -/
theorem consumeCore_okNew_inv (st : LedgerState) (user_id : Nat)
    (product_key action_type : String) (amount : Int)
    (idempotency_key : Option String) (now : Int) (u : Nat) (r : Int)
    (st1 : LedgerState)
    (h : consumeCore st user_id product_key action_type amount
      idempotency_key now = (.okNew u r, st1)) :
    ∃ first rest lastTx,
      order_by_created_at (find_active_batches st user_id
        (some product_key) now) = first :: rest ∧
      ¬ (((first :: rest).map (·.remaining_quantity)).sum < amount) ∧
      (consumeLoop user_id action_type idempotency_key (first :: rest)
        amount st.nextTxnId).2.1.getLast? = some lastTx ∧
      u = lastTx.id ∧
      st1 = { st with
        batches := applyBatchUpdates st.batches
          (consumeLoop user_id action_type idempotency_key (first :: rest)
            amount st.nextTxnId).1
        txns := st.txns ++ (consumeLoop user_id action_type idempotency_key
          (first :: rest) amount st.nextTxnId).2.1
        nextTxnId := (consumeLoop user_id action_type idempotency_key
          (first :: rest) amount st.nextTxnId).2.2 } ∧
      r = get_balance st1 user_id first.productKey now := by
  unfold consumeCore at h
  split at h
  · simp at h
  · rename_i first rest heq
    dsimp only at h
    split at h
    · simp at h
    · rename_i hlt
      split at h
      · simp at h
      · rename_i lastTx hlast
        rw [Prod.mk.injEq, ConsumeResult.okNew.injEq] at h
        obtain ⟨⟨hu, hr⟩, hst⟩ := h
        refine ⟨first, rest, lastTx, heq, hlt, hlast, hu.symm, hst.symm, ?_⟩
        rw [← hst]
        exact hr.symm

/-- Anatomy of a successful CONSUME core run: the balance of the
consumed key drops by exactly `amount`, and the transaction table grows
by an appended non-empty block of transactions carrying the user,
action type and idempotency key, whose last member's id is the echoed
`usage_id` and whose batch resolves to the consumed (normalised)
product key. -/
theorem consume_okNew_anatomy (st : LedgerState) (user_id : Nat)
    (key action_type : String) (amount : Int)
    (idempotency_key : Option String) (now : Int) (u : Nat) (r : Int)
    (st1 : LedgerState)
    (hkey : key ≠ "")
    (hnd : (st.batches.map (·.id)).Nodup)
    (hrem : ∀ b ∈ st.batches, 0 ≤ b.remaining_quantity)
    (h : consumeCore st user_id key action_type amount idempotency_key
      now = (.okNew u r, st1)) :
    get_balance st1 user_id key now =
      get_balance st user_id key now - amount ∧
    ∃ txs lastTx,
      st1.txns = st.txns ++ txs ∧
      (∀ t ∈ txs, t.userId = user_id ∧ t.actionType = action_type ∧
        t.idemKey = idempotency_key) ∧
      txs.getLast? = some lastTx ∧ lastTx.id = u ∧
      batchProductKey st1 lastTx.batchId = normKey key := by
  obtain ⟨first, rest, lastTx, heq, hlt, hlast, hu, hst1, hrv⟩ :=
    consumeCore_okNew_inv st user_id key action_type amount
      idempotency_key now u r st1 h
  rcases hloop : consumeLoop user_id action_type idempotency_key
      (first :: rest) amount st.nextTxnId with ⟨ubs, txs, nid⟩
  simp only [hloop] at hlast hst1
  obtain ⟨hlen1, hlen2, hfa⟩ := consumeLoop_spec user_id action_type
    idempotency_key (first :: rest) amount st.nextTxnId ubs txs nid hloop
  have hpos : 0 < amount := by
    by_contra hle
    push_neg at hle
    rw [consumeLoop_stop _ _ _ _ _ _ hle] at hloop
    rw [Prod.mk.injEq, Prod.mk.injEq] at hloop
    obtain ⟨e1, e2, e3⟩ := hloop
    subst e2
    simp at hlast
  have hself := selected_facts st user_id key now hkey
  rw [heq] at hself
  have hselnd := selected_nodup st user_id key now hnd
  rw [heq] at hselnd
  have hsum : (txs.map (·.amount)).sum = amount := by
    refine consumeLoop_sum user_id action_type idempotency_key _ _ _ _ _ _
      hloop (le_of_lt hpos) ?_ (by omega)
    intro b hb
    exact hrem b (hself b hb).1
  have hssLen : ((first :: rest).take ubs.length).length = ubs.length := by
    rw [List.length_take]
    exact Nat.min_eq_left hlen2
  have hzipLen : (ubs.zip txs).length = ubs.length := by
    rw [List.length_zip, hlen1, Nat.min_self]
  have htrip2 : (((first :: rest).take ubs.length).zip
      (ubs.zip txs)).map (fun x => x.2) = ubs.zip txs := by
    apply List.map_snd_zip
    rw [hzipLen, hssLen]
  have htripU : (((first :: rest).take ubs.length).zip
      (ubs.zip txs)).map (fun x => x.2.1) = ubs := by
    have hcomp : (((first :: rest).take ubs.length).zip
        (ubs.zip txs)).map (fun x => x.2.1) =
        ((((first :: rest).take ubs.length).zip
          (ubs.zip txs)).map (fun x => x.2)).map (fun y => y.1) := by
      rw [List.map_map]
      rfl
    rw [hcomp, htrip2]
    exact List.map_fst_zip ubs txs (le_of_eq hlen1.symm)
  have htripT : (((first :: rest).take ubs.length).zip
      (ubs.zip txs)).map (fun x => x.2.2) = txs := by
    have hcomp : (((first :: rest).take ubs.length).zip
        (ubs.zip txs)).map (fun x => x.2.2) =
        ((((first :: rest).take ubs.length).zip
          (ubs.zip txs)).map (fun x => x.2)).map (fun y => y.2) := by
      rw [List.map_map]
      rfl
    rw [hcomp, htrip2]
    exact List.map_snd_zip ubs txs (le_of_eq hlen1)
  have hpt : ∀ (a : QuotaBatch) (b : QuotaBatch × Txn),
      (a, b) ∈ ((first :: rest).take ubs.length).zip (ubs.zip txs) →
      touchedRel user_id action_type idempotency_key a b :=
    fun a b hab => (List.forall₂_iff_zip.mp hfa).2 hab
  have hubIds : ubs.map (·.id) =
      ((first :: rest).take ubs.length).map (·.id) := by
    have hids := touched_ids user_id action_type idempotency_key
      ((first :: rest).take ubs.length) (ubs.zip txs) hfa
    rw [← hids]
    have hcomp : (ubs.zip txs).map (fun x => x.1.id) =
        ((ubs.zip txs).map (fun x => x.1)).map (·.id) := by
      rw [List.map_map]
      rfl
    rw [hcomp]
    have hfst : (ubs.zip txs).map (fun x => x.1) = ubs :=
      List.map_fst_zip ubs txs (le_of_eq hlen1.symm)
    rw [hfst]
  have hssSub : ((first :: rest).take ubs.length).Sublist (first :: rest) :=
    List.take_sublist _ _
  have hubnd : (ubs.map (·.id)).Nodup := by
    rw [hubIds]
    exact hselnd.sublist (hssSub.map (·.id))
  have htripIds : ((((first :: rest).take ubs.length).zip
      (ubs.zip txs)).map (fun x => x.2.1.id)).Nodup := by
    have hcomp : ((((first :: rest).take ubs.length).zip
        (ubs.zip txs)).map (fun x => x.2.1.id)) =
        (((((first :: rest).take ubs.length).zip
          (ubs.zip txs)).map (fun x => x.2.1)).map (·.id)) := by
      rw [List.map_map]
      rfl
    rw [hcomp, htripU]
    exact hubnd
  have htripMem : ∀ x ∈ ((first :: rest).take ubs.length).zip
      (ubs.zip txs), x.1 ∈ st.batches ∧ x.2.1.id = x.1.id := by
    intro x hx
    have hmem := List.of_mem_zip hx
    refine ⟨(hself x.1 (List.mem_of_mem_take hmem.1)).1, ?_⟩
    exact (hpt x.1 x.2 (show (x.1, x.2) ∈ _ from hx)).1
  constructor
  · have happly := sum_map_applyBatchUpdates (balWeight user_id key now)
      (((first :: rest).take ubs.length).zip (ubs.zip txs)) st.batches
      hnd htripIds htripMem
    rw [htripU] at happly
    have hdiff := weights_diff_eq_amounts user_id key now action_type
      idempotency_key ((first :: rest).take ubs.length) (ubs.zip txs) hfa
      (fun s hs => (hself s (List.mem_of_mem_take hs)).2)
    have huts2 : (ubs.zip txs).map (·.2) = txs :=
      List.map_snd_zip ubs txs (le_of_eq hlen1)
    rw [huts2, hsum] at hdiff
    rw [get_balance_eq_weight_sum st1 user_id key now hkey, hst1,
      get_balance_eq_weight_sum st user_id key now hkey]
    show ((applyBatchUpdates st.batches ubs).map
      (balWeight user_id key now)).sum = _
    rw [happly, hdiff]
  · refine ⟨txs, lastTx, ?_, ?_, hlast, hu.symm, ?_⟩
    · rw [hst1]
    · intro t ht
      have hfld := consumeLoop_txn_fields user_id action_type
        idempotency_key (first :: rest) amount st.nextTxnId t
        (by rw [hloop]; exact ht)
      exact ⟨hfld.1, hfld.2.2.1, hfld.2.2.2⟩
    · have hlmem : lastTx ∈ txs := List.mem_of_getLast?_eq_some hlast
      have hlmem2 : lastTx ∈ (((first :: rest).take ubs.length).zip
          (ubs.zip txs)).map (fun x => x.2.2) := by
        rw [htripT]
        exact hlmem
      obtain ⟨x, hxmem, hxeq⟩ := List.mem_map.mp hlmem2
      have hxR := hpt x.1 x.2 (show (x.1, x.2) ∈ _ from hxmem)
      obtain ⟨hxid, _, _, hxpk, _, _, _, _, _, _, hxbid, _, _, _, _⟩ := hxR
      have hbid : lastTx.batchId = x.1.id := by
        rw [← hxeq]
        exact hxbid
      have hx1mem : x.1 ∈ first :: rest :=
        List.mem_of_mem_take (List.of_mem_zip hxmem).1
      have hx21mem : x.2.1 ∈ ubs := by
        have h2 := (List.of_mem_zip hxmem).2
        exact (List.of_mem_zip (show (x.2.1, x.2.2) ∈ _ from h2)).1
      rw [hst1]
      unfold batchProductKey
      show (((applyBatchUpdates st.batches ubs).find?
        (fun b => b.id == lastTx.batchId)).map (·.productKey)).getD "" = _
      have hFid := applyBatchUpdates_row_id ubs
      have hfind1 : (applyBatchUpdates st.batches ubs).find?
          (fun b => b.id == lastTx.batchId) =
          ((st.batches.find? (fun b => b.id == lastTx.batchId)).map
            (fun b => (ubs.find? (fun v => v.id == b.id)).getD b)) := by
        unfold applyBatchUpdates
        exact find?_map_id_preserving _ hFid st.batches lastTx.batchId
      have hfind2 : st.batches.find? (fun b => b.id == lastTx.batchId) =
          some x.1 :=
        find?_of_mem_nodup st.batches x.1 lastTx.batchId
          ((hself x.1 hx1mem).1) hbid.symm hnd
      have hfind3 : ubs.find? (fun v => v.id == x.1.id) = some x.2.1 :=
        find?_of_mem_nodup ubs x.2.1 x.1.id hx21mem hxid hubnd
      rw [hfind1, hfind2, Option.map_some', hfind3, Option.getD_some,
        Option.map_some', Option.getD_some, hxpk]
      exact beq_iff_eq.mp (hself x.1 hx1mem).2.2

/-- A hit in the idempotency lookup short-circuits `consume_quota`,
echoing the found transaction's id and the current balance of its
batch's product. -/
theorem consume_quota_idem_hit (st : LedgerState) (user_id : Nat)
    (key action_type : String) (amount : Int) (k : String) (now : Int)
    (t : Txn) (hk : k ≠ "")
    (hlook : idempotencyLookup st.txns user_id action_type k = some t) :
    consume_quota st user_id key action_type amount (some k) now =
      (.okIdem t.id
        (get_balance st user_id (batchProductKey st t.batchId) now), st) := by
  show (if k ≠ "" then
    match idempotencyLookup st.txns user_id action_type k with
    | some existing =>
        (ConsumeResult.okIdem existing.id
          (get_balance st user_id (batchProductKey st existing.batchId)
            now), st)
    | none => consumeCore st user_id key action_type amount (some k) now
    else consumeCore st user_id key action_type amount (some k) now) = _
  rw [if_pos hk, hlook]

/-- **C5**.  Two successive CONSUME calls with the same user, action
type, amount and (canonical, non-empty) idempotency key, the first of
which succeeds against a fresh key: the second call also succeeds,
echoing the first call's `usage_id` and the current balance, and it
returns the state unchanged — no new `QuotaBatch` or `Transaction`
rows; the balance decreased by `amount` exactly once (during the first
call). -/
theorem C5_consume_idempotency (st : LedgerState) (user_id : Nat)
    (key action_type : String) (amount : Int) (k : String) (now : Int)
    (u : Nat) (r : Int) (st1 : LedgerState)
    (hk : k ≠ "") (hkey : key ≠ "") (hnorm : normKey key = key)
    (hnd : (st.batches.map (·.id)).Nodup)
    (hrem : ∀ b ∈ st.batches, 0 ≤ b.remaining_quantity)
    (hfresh : idempotencyLookup st.txns user_id action_type k = none)
    (h1 : consume_quota st user_id key action_type amount (some k) now =
      (.okNew u r, st1)) :
    consume_quota st1 user_id key action_type amount (some k) now =
      (.okIdem u (get_balance st1 user_id key now), st1) ∧
    get_balance st1 user_id key now =
      get_balance st user_id key now - amount := by
  rw [consume_quota_eq_core st user_id key action_type amount (some k) now
    (fun k' hk' _ => by cases hk'; exact hfresh)] at h1
  obtain ⟨hbal, txs, lastTx, htxns, hflds, hlastTx, hlid, hbpk⟩ :=
    consume_okNew_anatomy st user_id key action_type amount (some k) now
      u r st1 hkey hnd hrem h1
  have hlook : idempotencyLookup st1.txns user_id action_type k =
      some lastTx := by
    unfold idempotencyLookup
    rw [htxns, List.reverse_append]
    apply find?_append_of_some
    rw [find?_eq_head?_of_all]
    · rw [List.head?_reverse]
      exact hlastTx
    · intro x hx
      obtain ⟨f1, f2, f3⟩ := hflds x (List.mem_reverse.mp hx)
      simp [f1, f2, f3]
  refine ⟨?_, hbal⟩
  rw [consume_quota_idem_hit st1 user_id key action_type amount k now
    lastTx hk hlook, hlid, hbpk, hnorm]

/-- The ledger after `CONSUME(TOKENS, 7, key := K1)` against the (5, 5)
FIFO ledger. -/
def fifoLedgerAfterK1 : LedgerState :=
  { batches :=
      [{ exBatch with remaining_quantity := 0, state := .EXHAUSTED },
       { exBatch with
           id := 2
           created_at := 20
           remaining_quantity := 3 }],
    txns :=
      [{ id := 100, userId := exUser, batchId := 1, amount := 5,
         direction := .DEBIT, actionType := "usage", idemKey := some "K1" },
       { id := 101, userId := exUser, batchId := 2, amount := 2,
         direction := .DEBIT, actionType := "usage", idemKey := some "K1" }],
    nextBatchId := 3, nextTxnId := 102 }

/-- **C5** (witness).  Replaying `CONSUME(TOKENS, 7, key := K1)` after
its first success: the replay answers with the first call's usage id
(101) and the current balance, changing nothing. -/
theorem C5_consume_idempotency_witness :
    consume_quota fifoLedgerAfterK1 exUser "TOKENS" "usage" 7
        (some "K1") 50 =
      (.okIdem 101 (get_balance fifoLedgerAfterK1 exUser "TOKENS" 50),
       fifoLedgerAfterK1) :=
  (C5_consume_idempotency fifoLedger exUser "TOKENS" "usage" 7 "K1" 50
    101 3 fifoLedgerAfterK1 (by decide) (by decide) (by decide)
    (by decide) (by decide) rfl rfl).1

/-- **C2** (witness).  The amended theorem applied to the CANCELLED
example order: CONFIRM moves it to PAID. -/
theorem C2_order_transitions_witness :
    ((process_payment (fun n _ => n) (fun n _ => n) (exSys .CANCELLED) 1
        (some "PAY-1") "wire" 50).map fun r =>
          (r.1, orderStatus r.2 1)) = some (true, some .PAID) :=
  ((C2_order_transitions (fun n _ => n) (fun n _ => n) (exSys .CANCELLED) 1
      (some "PAY-1") "wire" 50 (exOrder .CANCELLED) (by rfl)).1.2
    (by simp [exOrder]))

end Billable
